import Mathlib

/-!
# ThreadPool (threadpool.h): scheduling core

A shallow embedding of `class ThreadPool` from `threadpool.h`.

* A task (`FunctionWrapper`) is identified by a natural number; the future
  obtained from the packaged task carries the same identity.
* The three headers `threadsafequeue.h`, `lockfreeworkstealingqueue.h` and
  `threadwrapper.h` are not part of the sources at hand; the queue
  operations and the joiner are modelled from the specification, as lists.
* A thread's `thread_local` variables (`local_queue`, `idx`) are an explicit
  record passed to every member function; the pointer `local_queue` is the
  index of the slot of `queues` it points into.
* `unsigned int` values are natural numbers reduced modulo `2 ^ 32` where the
  source does arithmetic on them.
* Every member function returns, next to its result, the list of operations
  it performed, so that the order of the operations can be stated.
-/

namespace ThreadPoolModel

/-- The type-erased task `FunctionWrapper` (`using TaskType = FunctionWrapper`),
identified by the identity of the packaged task it wraps. -/
abbrev TaskType := Nat

/-- The `std::future` obtained by `task.get_future()`: it is paired with the
packaged task whose identity it records. -/
structure Future where
  task : TaskType
  deriving DecidableEq, Repr

/-- A work-stealing deque: the head of the list is the front (the steal end, the
oldest item), the last element is the back (the owner's end). -/
abbrev LockFreeWorkStealingQueue := List TaskType

/-- The shared fallback queue: the head of the list is the head of the queue. -/
abbrev ThreadSafeQueue := List TaskType

/-- Modelled from the spec: `LockFreeWorkStealingQueue::push_back`
(`lockfreeworkstealingqueue.h` is missing), the spec's `push_bottom`:
"appends at bottom; always succeeds". -/
def LockFreeWorkStealingQueue.push_back (q : LockFreeWorkStealingQueue) (t : TaskType) :
    LockFreeWorkStealingQueue :=
  q ++ [t]

/-- Modelled from the spec: `LockFreeWorkStealingQueue::try_pop_back`
(`lockfreeworkstealingqueue.h` is missing), the spec's `pop_bottom`: "removes and
returns the most recently pushed item (stack/LIFO order) if the deque is
non-empty". -/
def LockFreeWorkStealingQueue.try_pop_back (q : LockFreeWorkStealingQueue) :
    Option (TaskType × LockFreeWorkStealingQueue) :=
  match q.getLast? with
  | none => none
  | some t => some (t, q.dropLast)

/-- Modelled from the spec: `LockFreeWorkStealingQueue::try_steal_front`
(`lockfreeworkstealingqueue.h` is missing), the spec's `try_steal_top`: "removes
and returns the oldest item (FIFO order, opposite end from the owner) if
present". -/
def LockFreeWorkStealingQueue.try_steal_front (q : LockFreeWorkStealingQueue) :
    Option (TaskType × LockFreeWorkStealingQueue) :=
  match q with
  | [] => none
  | t :: rest => some (t, rest)

/-- Modelled from the spec: `ThreadSafeQueue::push` (`threadsafequeue.h` is
missing): "inserts at the tail; always succeeds". -/
def ThreadSafeQueue.push (q : ThreadSafeQueue) (t : TaskType) : ThreadSafeQueue :=
  q ++ [t]

/-- Modelled from the spec: `ThreadSafeQueue::try_pop` (`threadsafequeue.h` is
missing): "removes and returns the head if non-empty, else returns nothing
immediately". -/
def ThreadSafeQueue.try_pop (q : ThreadSafeQueue) : Option (TaskType × ThreadSafeQueue) :=
  match q with
  | [] => none
  | t :: rest => some (t, rest)

/-- The data members of `ThreadPool` that hold state (lines 22-30). A slot of
`queues` is a `unique_ptr`, which may be null (`none`). `threads` records, for
every started thread, the argument `idx_` given to `worker_thread`.
`queues_capacity` and `threads_capacity` are the capacities of the two vectors
(what `reserve` changes). The member `joiner` holds a reference to `threads`
and no state of its own. -/
structure ThreadPool where
  done : Bool
  cur_queues_size : Nat
  queues : List (Option LockFreeWorkStealingQueue)
  pool_queue : ThreadSafeQueue
  threads : List Nat
  queues_capacity : Nat
  threads_capacity : Nat
  deriving DecidableEq, Repr

/-- The `static thread_local` members (lines 32-33) of one thread. `local_queue`
is null (`none`) or points to the deque in slot `k` of `queues` (`some k`).
Both are zero-initialised in a thread that never ran `worker_thread`. -/
structure ThreadLocal where
  local_queue : Option Nat
  idx : Nat
  deriving DecidableEq, Repr

/-- The thread-local state of a thread that is not a worker. -/
def ThreadLocal.non_worker : ThreadLocal := { local_queue := none, idx := 0 }

/-- The operations a member function performs, in the order it performs them. -/
inductive Event where
  /-- Reading of `done` in the loop condition, with the value read. -/
  | load_done (value : Bool)
  /-- Call of `local_queue->try_pop_back(task)` on the deque of slot `slot`. -/
  | try_pop_back (slot : Nat) (result : Option TaskType)
  /-- Call of `pool_queue.try_pop(task)`. -/
  | try_pop (result : Option TaskType)
  /-- The test `queues[slot]` found a null pointer: no call is made. -/
  | null_slot (slot : Nat)
  /-- Call of `queues[slot]->try_steal_front(task)`. -/
  | try_steal_front (slot : Nat) (result : Option TaskType)
  /-- Call of `local_queue->push_back(...)` on the deque of slot `slot`. -/
  | push_back (slot : Nat) (task : TaskType)
  /-- Call of `pool_queue.push(...)`. -/
  | push (task : TaskType)
  /-- The call `task()`. -/
  | invoke (task : TaskType)
  /-- The call `std::this_thread::yield()`. -/
  | yield
  deriving DecidableEq, Repr

/-- The deque a pointer to slot `k` refers to, if the slot holds one. -/
def ThreadPool.deque_at (s : ThreadPool) (k : Nat) : Option LockFreeWorkStealingQueue :=
  match s.queues[k]? with
  | some (some q) => some q
  | _ => none

/-- The pool with the deque of slot `k` replaced by `q`. -/
def ThreadPool.store_deque (s : ThreadPool) (k : Nat) (q : LockFreeWorkStealingQueue) :
    ThreadPool :=
  { s with queues := s.queues.set k (some q) }

/-- The member function `submit` (lines 99-113). The task is routed by the
calling thread's `local_queue`; the future `res` taken from the packaged task
is returned in both branches. A `local_queue` that points to no deque does not
occur in the program (`worker_thread` sets it from a populated slot); there the
call is recorded and the state is left as it is. -/
def ThreadPool.submit (s : ThreadPool) (tl : ThreadLocal) (f : TaskType) :
    ThreadPool × Future × List Event :=
  let task := f
  let res : Future := { task := task }
  match tl.local_queue with
  | some k =>
    match s.deque_at k with
    | some q => (s.store_deque k (q.push_back task), res, [Event.push_back k task])
    | none => (s, res, [Event.push_back k task])
  | none => ({ s with pool_queue := s.pool_queue.push task }, res, [Event.push task])

/-- The member function `pop_task_from_local_queue` (lines 45-48):
`local_queue && local_queue->try_pop_back(task)`. The result is the task
written to the out-parameter (`none` for `false`), the new state and the
operations performed. -/
def ThreadPool.pop_task_from_local_queue (s : ThreadPool) (tl : ThreadLocal) :
    Option TaskType × ThreadPool × List Event :=
  match tl.local_queue with
  | none => (none, s, [])
  | some k =>
    match s.deque_at k with
    | none => (none, s, [Event.try_pop_back k none])
    | some q =>
      match q.try_pop_back with
      | some (t, q') => (some t, s.store_deque k q', [Event.try_pop_back k (some t)])
      | none => (none, s, [Event.try_pop_back k none])

/-- The member function `pop_task_from_pool_queue` (lines 50-53):
`pool_queue.try_pop(task)`. -/
def ThreadPool.pop_task_from_pool_queue (s : ThreadPool) :
    Option TaskType × ThreadPool × List Event :=
  match s.pool_queue.try_pop with
  | some (t, q') => (some t, { s with pool_queue := q' }, [Event.try_pop (some t)])
  | none => (none, s, [Event.try_pop none])

/-- The slot index computed on line 59, `(idx+1+i) % sz`, in `unsigned int`
arithmetic: the sum is reduced modulo `2 ^ 32` before the remainder is taken. -/
def steal_index (idx sz i : Nat) : Nat :=
  ((idx + 1 + i) % 2 ^ 32) % sz

/-- The loop of `pop_task_from_other_thread_queue` (lines 58-63), entered with
loop counter `i` and `remaining = sz - i` iterations to go. A probe that fails
leaves the state unchanged; the first probe that succeeds returns. An index
beyond the end of `queues` does not occur in the program (the count never
exceeds the number of slots); it is treated like a null slot. -/
def ThreadPool.steal_loop (s : ThreadPool) (idx sz : Nat) :
    Nat → Nat → Option TaskType × ThreadPool × List Event
  | 0, _ => (none, s, [])
  | remaining + 1, i =>
    let index := steal_index idx sz i
    match s.deque_at index with
    | none =>
      let r := s.steal_loop idx sz remaining (i + 1)
      (r.1, r.2.1, Event.null_slot index :: r.2.2)
    | some q =>
      match q.try_steal_front with
      | some (t, q') =>
        (some t, s.store_deque index q', [Event.try_steal_front index (some t)])
      | none =>
        let r := s.steal_loop idx sz remaining (i + 1)
        (r.1, r.2.1, Event.try_steal_front index none :: r.2.2)

/-- The member function `pop_task_from_other_thread_queue` (lines 55-65): `sz` is
loaded from `cur_queues_size`, then the loop runs for `i = 0, ..., sz - 1`. -/
def ThreadPool.pop_task_from_other_thread_queue (s : ThreadPool) (tl : ThreadLocal) :
    Option TaskType × ThreadPool × List Event :=
  let sz := s.cur_queues_size
  s.steal_loop tl.idx sz sz 0

/-- The member function `run_pending_task` (lines 115-126): the three pops are
joined by the short-circuit `||`; a task obtained is invoked, otherwise the
thread yields. -/
def ThreadPool.run_pending_task (s : ThreadPool) (tl : ThreadLocal) :
    ThreadPool × List Event :=
  match s.pop_task_from_local_queue tl with
  | (some task, s1, e1) => (s1, e1 ++ [Event.invoke task])
  | (none, s1, e1) =>
    match s1.pop_task_from_pool_queue with
    | (some task, s2, e2) => (s2, e1 ++ e2 ++ [Event.invoke task])
    | (none, s2, e2) =>
      match s2.pop_task_from_other_thread_queue tl with
      | (some task, s3, e3) => (s3, e1 ++ e2 ++ e3 ++ [Event.invoke task])
      | (none, s3, e3) => (s3, e1 ++ e2 ++ e3 ++ [Event.yield])

/-- The first two statements of `worker_thread` (lines 36-37): the thread-local
state of the worker started with argument `idx_`. `queues[idx].get()` is null
when the slot holds no deque. -/
def ThreadPool.worker_identity (s : ThreadPool) (idx_ : Nat) : ThreadLocal :=
  { idx := idx_, local_queue := if (s.deque_at idx_).isSome then some idx_ else none }

/-- The store `done = b` made by another thread (the destructor body stores
`true`). -/
def ThreadPool.set_done (s : ThreadPool) (b : Bool) : ThreadPool :=
  { s with done := b }

/-- What the other threads do to the shared state during one iteration of a
worker's loop: between the reading of `done` and the scheduling attempt, and
between the attempt and the next reading of `done`. -/
structure Interference where
  after_load : ThreadPool → ThreadPool
  after_attempt : ThreadPool → ThreadPool

/-- The outcome of a run of the worker loop: the final state, the operations
of the worker in order, and whether the loop was left. -/
structure LoopRun where
  state : ThreadPool
  events : List Event
  exited : Bool
  deriving DecidableEq, Repr

/-- The loop of `worker_thread` (lines 39-42), `while (!done) run_pending_task();`,
run against the interference of the other threads, one entry of `env` for
every iteration. The loop is left when `done` is read as set; when `env` is
used up the run stops before the next reading of `done`. -/
def ThreadPool.worker_loop (tl : ThreadLocal) : List Interference → ThreadPool → LoopRun
  | [], s => { state := s, events := [], exited := false }
  | e :: env, s =>
    if s.done then { state := s, events := [Event.load_done true], exited := true }
    else
      let r := (e.after_load s).run_pending_task tl
      let rest := ThreadPool.worker_loop tl env (e.after_attempt r.1)
      { rest with events := Event.load_done false :: r.2 ++ rest.events }

/-- The interference of a thread that stores `done = true` while the worker is
inside its scheduling attempt, and does nothing else. -/
def Interference.shutdown : Interference :=
  { after_load := fun s => s.set_done true, after_attempt := fun s => s }

/-- The interference of threads that do nothing. -/
def Interference.idle : Interference :=
  { after_load := fun s => s, after_attempt := fun s => s }

/-- The member function `worker_thread` (lines 35-43). -/
def ThreadPool.worker_thread (s : ThreadPool) (idx_ : Nat) (env : List Interference) : LoopRun :=
  ThreadPool.worker_loop (s.worker_identity idx_) env s

/-- The worker's own deque holds no task: `local_queue` is null, or the deque
it points to is empty (or absent). -/
def ThreadLocal.own_deque_empty (tl : ThreadLocal) (s : ThreadPool) : Prop :=
  ∀ k, tl.local_queue = some k → s.deque_at k = none ∨ s.deque_at k = some []

/-- The operations of a first tier that fails: none when `local_queue` is null
(the `&&` short-circuits), else the one call of `try_pop_back`. -/
def ThreadLocal.failed_local_pop (tl : ThreadLocal) : List Event :=
  match tl.local_queue with
  | none => []
  | some k => [Event.try_pop_back k none]

/-- The round-robin order of the specification for own index `k` and `n`
constructed slots: `(k+1) mod n, (k+2) mod n, ..., (k+n) mod n`. -/
def steal_order (k n : Nat) : List Nat :=
  (List.range n).map (fun i => (k + 1 + i) % n)

/-- The slots probed by the steal scan (the test `queues[index] && ...`) among a
list of operations, in order. -/
def probed_slots : List Event → List Nat
  | [] => []
  | Event.null_slot j :: rest => j :: probed_slots rest
  | Event.try_steal_front j _ :: rest => j :: probed_slots rest
  | _ :: rest => probed_slots rest

/-- The slots on which `try_steal_front` is called among a list of operations,
in order. -/
def stolen_from : List Event → List Nat
  | [] => []
  | Event.try_steal_front j _ :: rest => j :: stolen_from rest
  | _ :: rest => stolen_from rest

/-- The task a probe of slot `j` obtains: the front of the deque of the slot, if
the slot holds a deque and the deque is not empty. -/
def ThreadPool.stealable (s : ThreadPool) (j : Nat) : Option TaskType :=
  match s.deque_at j with
  | some (t :: _) => some t
  | _ => none

/-- One atomic step of a thread on the pool: a call of `submit` or one
scheduling attempt, by the thread with the given thread-local state. -/
inductive Step where
  | submit (tl : ThreadLocal) (f : TaskType)
  | run_pending_task (tl : ThreadLocal)
  deriving DecidableEq, Repr

/-- The thread that takes a step. -/
def Step.thread : Step → ThreadLocal
  | Step.submit tl _ => tl
  | Step.run_pending_task tl => tl

/-- The tasks invoked (`task()`) among a list of operations, in order. -/
def invoked_tasks : List Event → List TaskType
  | [] => []
  | Event.invoke t :: rest => t :: invoked_tasks rest
  | _ :: rest => invoked_tasks rest

/-- The tasks handed to `submit` in a list of steps, in order. -/
def submitted_tasks : List Step → List TaskType
  | [] => []
  | Step.submit _ f :: rest => f :: submitted_tasks rest
  | Step.run_pending_task _ :: rest => submitted_tasks rest

/-- The tasks held by the deques, slot by slot. -/
def held_by_deques : List (Option LockFreeWorkStealingQueue) → List TaskType
  | [] => []
  | none :: rest => held_by_deques rest
  | some q :: rest => q ++ held_by_deques rest

/-- The tasks held by the queues of the pool: those of every deque, then those
of the fallback queue. -/
def ThreadPool.held (s : ThreadPool) : List TaskType :=
  held_by_deques s.queues ++ s.pool_queue

/-- The pool `s'` is the pool `s` with the task `t` removed from exactly one
queue: from the back of one deque, from the front of one deque, or from the
head of the fallback queue; nothing else differs. -/
def ThreadPool.removes (s : ThreadPool) (t : TaskType) (s' : ThreadPool) : Prop :=
  (∃ k q, s.deque_at k = some (q ++ [t]) ∧ s' = s.store_deque k q) ∨
  (∃ k q, s.deque_at k = some (t :: q) ∧ s' = s.store_deque k q) ∨
  (∃ rest, s.pool_queue = t :: rest ∧ s' = { s with pool_queue := rest })

/-- The pool together with the tasks invoked so far. -/
structure Execution where
  pool : ThreadPool
  invoked : List TaskType
  deriving DecidableEq, Repr

/-- The effect of one atomic step. -/
def Execution.step (x : Execution) : Step → Execution
  | Step.submit tl f => { x with pool := (x.pool.submit tl f).1 }
  | Step.run_pending_task tl =>
    let r := x.pool.run_pending_task tl
    { pool := r.1, invoked := x.invoked ++ invoked_tasks r.2 }

/-- The effect of a sequence of atomic steps. -/
def Execution.run (x : Execution) (steps : List Step) : Execution :=
  steps.foldl Execution.step x

/-- A thread-local state is valid for a pool when `local_queue` is null or
points to a deque of the pool. -/
def ThreadLocal.valid (tl : ThreadLocal) (s : ThreadPool) : Prop :=
  ∀ k, tl.local_queue = some k → (s.deque_at k).isSome = true

/-- The statements of the constructor's `try` block (lines 73-78); the
statements of the loop body carry the value of the loop variable `i`. The
output statement on line 79 has no effect on the pool and is left out. -/
inductive Stmt where
  /-- Line 73, `queues.reserve(thread_count)`. -/
  | reserve_queues
  /-- Line 74, `threads.reserve(thread_count)`. -/
  | reserve_threads
  /-- Line 76, `queues.push_back(std::make_unique<LockFreeWorkStealingQueue>())`. -/
  | make_queue (i : Nat)
  /-- Line 77, `cur_queues_size.fetch_add(1, std::memory_order_release)`. -/
  | fetch_add (i : Nat)
  /-- Line 78, `threads.push_back(std::thread(&ThreadPool::worker_thread, this, i))`. -/
  | start_thread (i : Nat)
  deriving DecidableEq, Repr

/-- The state after the member initialisers and line 69: `done(false)`, the
count stored as zero, empty vectors and an empty fallback queue. -/
def ThreadPool.initial : ThreadPool :=
  { done := false, cur_queues_size := 0, queues := [], pool_queue := [], threads := [],
    queues_capacity := 0, threads_capacity := 0 }

/-- The effect of a statement of the `try` block that completes. The count is an
`unsigned int`: `fetch_add` wraps modulo `2 ^ 32`. -/
def Stmt.exec (thread_count : Nat) (s : ThreadPool) : Stmt → ThreadPool
  | Stmt.reserve_queues => { s with queues_capacity := max s.queues_capacity thread_count }
  | Stmt.reserve_threads => { s with threads_capacity := max s.threads_capacity thread_count }
  | Stmt.make_queue _ =>
    { s with queues := s.queues ++ [some []],
             queues_capacity := max s.queues_capacity (s.queues.length + 1) }
  | Stmt.fetch_add _ => { s with cur_queues_size := (s.cur_queues_size + 1) % 2 ^ 32 }
  | Stmt.start_thread i =>
    { s with threads := s.threads ++ [i],
             threads_capacity := max s.threads_capacity (s.threads.length + 1) }

/-- The body of the loop on lines 75-80 for the value `i` of the loop variable. -/
def loop_body (i : Nat) : List Stmt :=
  [Stmt.make_queue i, Stmt.fetch_add i, Stmt.start_thread i]

/-- The statements of the `try` block in the order a run without failure
executes them: the two `reserve` calls, then the loop body for
`i = 0, ..., thread_count - 1`. -/
def try_block (thread_count : Nat) : List Stmt :=
  [Stmt.reserve_queues, Stmt.reserve_threads] ++ (List.range thread_count).flatMap loop_body

/-- A run of the constructor: the states after every completed statement in
order (`points`, the state before the `try` block first, the state left by
the handler last when a statement throws), and the exception leaving the
constructor, if any. -/
structure Construction where
  points : List ThreadPool
  last : ThreadPool
  thrown : Option Nat
  deriving DecidableEq, Repr

/-- Execution of the statements of the `try` block from state `s`. `throws st`
is the exception the statement `st` throws, if it fails; a statement that
throws has no effect. The handler on lines 81-85 sets `done` and rethrows. -/
def run_try (thread_count : Nat) (throws : Stmt → Option Nat) :
    List Stmt → ThreadPool → Construction
  | [], s => { points := [s], last := s, thrown := none }
  | st :: rest, s =>
    match throws st with
    | some e =>
      let handled := { s with done := true }
      { points := [s, handled], last := handled, thrown := some e }
    | none =>
      let r := run_try thread_count throws rest (st.exec thread_count s)
      { r with points := s :: r.points }

/-- The constructor `ThreadPool()` (lines 68-86) with
`thread_count = std::thread::hardware_concurrency()`. -/
def ThreadPool.construct (thread_count : Nat) (throws : Stmt → Option Nat) : Construction :=
  run_try thread_count throws (try_block thread_count) ThreadPool.initial

/-- The pool after `i` complete iterations of the constructor's loop, in closed
form: the count is `i`, slots `0, ..., i - 1` hold an empty deque, threads
`0, ..., i - 1` are started, and both capacities are the reserved
`thread_count`. -/
def ThreadPool.after_iterations (thread_count i : Nat) : ThreadPool :=
  { done := false, cur_queues_size := i, queues := List.replicate i (some []),
    pool_queue := [], threads := List.range i,
    queues_capacity := thread_count, threads_capacity := thread_count }

/-- The statements of the `try` block that come before iteration `i` of the
loop. -/
def before_iteration (i : Nat) : List Stmt :=
  [Stmt.reserve_queues, Stmt.reserve_threads] ++ (List.range i).flatMap loop_body

/-- The number of populated slots of `queues`. -/
def ThreadPool.populated (s : ThreadPool) : Nat :=
  (s.queues.filter Option.isSome).length

/-- The effect of a list of statements that all complete. -/
def exec_all (thread_count : Nat) (stmts : List Stmt) (s : ThreadPool) : ThreadPool :=
  stmts.foldl (fun p st => st.exec thread_count p) s

/-- What holds at a point of the construction: no more threads are started than
the count says, the count is the number of populated slots or one less, every
slot of `queues` is populated, there are at most `thread_count` slots, and
every started thread has an own index below the count and a populated slot. -/
def construction_point (thread_count : Nat) (s : ThreadPool) : Prop :=
  s.threads.length ≤ s.cur_queues_size ∧
  s.cur_queues_size ≤ s.populated ∧
  s.populated ≤ s.cur_queues_size + 1 ∧
  s.populated = s.queues.length ∧
  s.populated ≤ thread_count ∧
  ∀ i ∈ s.threads, i < s.cur_queues_size ∧ (s.deque_at i).isSome = true

/-- What holds from one point of the construction to the next: the count does
not decrease, and a thread is started, if one is, for the slot `i` with
`i + 1` equal to the count, at a point where the count is the number of
populated slots and slot `i` is populated. -/
def construction_step (s s' : ThreadPool) : Prop :=
  s.cur_queues_size ≤ s'.cur_queues_size ∧
  (s'.threads = s.threads ∨
    ∃ i, s'.threads = s.threads ++ [i] ∧ i + 1 = s.cur_queues_size ∧
      s.populated = s.cur_queues_size ∧ (s.deque_at i).isSome = true)

/-- A running pool of three workers: worker 0 holds tasks 1 and 2, worker 1
holds nothing, worker 2 holds task 3, and the fallback queue holds tasks 4
and 5. -/
def busy_pool : ThreadPool :=
  { done := false, cur_queues_size := 3, queues := [some [1, 2], some [], some [3]],
    pool_queue := [4, 5], threads := [0, 1, 2], queues_capacity := 3, threads_capacity := 3 }

/-- The pool `busy_pool` with the fallback queue emptied. -/
def stealing_pool : ThreadPool :=
  { busy_pool with pool_queue := [] }

/-- Worker 1 submits task 9 and makes two scheduling attempts, then a thread that
is not a worker makes one. -/
def busy_steps : List Step :=
  [Step.submit { local_queue := some 1, idx := 1 } 9,
   Step.run_pending_task { local_queue := some 1, idx := 1 },
   Step.run_pending_task { local_queue := some 1, idx := 1 },
   Step.run_pending_task ThreadLocal.non_worker]

/-- The pool of two workers as the constructor leaves it: no task anywhere. -/
def idle_pool : ThreadPool :=
  (ThreadPool.construct 2 (fun _ => none)).last

/-- A failure of the start of the thread of slot 1, with exception 7. -/
def thread_one_fails : Stmt → Option Nat :=
  fun st => if st = Stmt.start_thread 1 then some 7 else none

/-- A failure of the making of the deque of slot 1, with exception 8. -/
def slot_one_fails : Stmt → Option Nat :=
  fun st => if st = Stmt.make_queue 1 then some 8 else none

/-- A failure of `queues.reserve`, with exception 9. -/
def reserve_fails : Stmt → Option Nat :=
  fun st => if st = Stmt.reserve_queues then some 9 else none

/-- The data members in the order of their declaration (lines 22-30). -/
inductive Member where
  | done
  | cur_queues_size
  | queues
  | pool_queue
  | threads
  | joiner
  deriving DecidableEq, Repr

/-- The data members, in declaration order. -/
def members : List Member :=
  [Member.done, Member.cur_queues_size, Member.queues, Member.pool_queue, Member.threads,
   Member.joiner]

/-- The operations of a teardown. -/
inductive Teardown where
  /-- The store `done = true` of the destructor body. -/
  | set_done
  /-- The joining of the thread started for slot `i`. -/
  | join (i : Nat)
  /-- The release of a data member. -/
  | release (m : Member)
  deriving DecidableEq, Repr

/-- Modelled from the spec: the destructor of `ThreadWrapper` (`threadwrapper.h`
is missing), the spec's Shutdown Coordinator, which "guarantees all worker
threads are joined": it joins every thread of the vector it was constructed
with (`joiner(threads)`), in order. -/
def ThreadWrapper.destroy (threads : List Nat) : List Teardown :=
  threads.map Teardown.join

/-- The destruction of one data member. -/
def Member.destroy (s : ThreadPool) : Member → List Teardown
  | Member.joiner => ThreadWrapper.destroy s.threads ++ [Teardown.release Member.joiner]
  | m => [Teardown.release m]

/-- The destruction sequence of a pool: the destructor body (lines 88-97), which
stores `done = true`, then the data members in reverse order of declaration. -/
def ThreadPool.destruct (s : ThreadPool) : List Teardown :=
  [Teardown.set_done] ++ members.reverse.flatMap (Member.destroy s)

/-! ### Queue operations -/

theorem try_pop_back_append (q : LockFreeWorkStealingQueue) (t : TaskType) :
    LockFreeWorkStealingQueue.try_pop_back (q ++ [t]) = some (t, q) := by
  simp [LockFreeWorkStealingQueue.try_pop_back]

theorem try_pop_back_nil :
    LockFreeWorkStealingQueue.try_pop_back [] = none := by
  simp [LockFreeWorkStealingQueue.try_pop_back]

theorem deque_at_store_deque_self (s : ThreadPool) (k : Nat) (q q' : LockFreeWorkStealingQueue)
    (h : s.deque_at k = some q) : (s.store_deque k q').deque_at k = some q' := by
  have hk : k < s.queues.length := by
    by_contra hlt
    have hnone : s.queues[k]? = none := List.getElem?_eq_none (by omega)
    simp [ThreadPool.deque_at, hnone] at h
  simp [ThreadPool.deque_at, ThreadPool.store_deque, List.getElem?_set, hk]

theorem deque_at_store_deque_other (s : ThreadPool) (k j : Nat) (q' : LockFreeWorkStealingQueue)
    (h : j ≠ k) : (s.store_deque k q').deque_at j = s.deque_at j := by
  simp [ThreadPool.deque_at, ThreadPool.store_deque, List.getElem?_set, Ne.symm h]

/-! ### Submission -/

/-- C1. Submission routing. A thread whose `local_queue` points to the deque of
slot `k` appends the task at the bottom of that deque (one `push_back`) and
leaves every other slot, the fallback queue and the other members unchanged; a
thread whose `local_queue` is null appends the task at the tail of the
fallback queue (one `push`) and leaves every deque unchanged. In both cases
the future paired with the task is returned. -/
theorem submit_routing (s : ThreadPool) (tl : ThreadLocal) (f : TaskType) :
    (∀ k q, tl.local_queue = some k → s.deque_at k = some q →
      (s.submit tl f).1 = { s with queues := s.queues.set k (some (q ++ [f])) } ∧
      (s.submit tl f).1.deque_at k = some (q ++ [f]) ∧
      (∀ j, j ≠ k → (s.submit tl f).1.queues.get? j = s.queues.get? j) ∧
      (s.submit tl f).1.queues.length = s.queues.length ∧
      (s.submit tl f).1.pool_queue = s.pool_queue ∧
      (s.submit tl f).2.2 = [Event.push_back k f]) ∧
    (tl.local_queue = none →
      (s.submit tl f).1 = { s with pool_queue := s.pool_queue ++ [f] } ∧
      (s.submit tl f).1.pool_queue = s.pool_queue ++ [f] ∧
      (s.submit tl f).1.queues = s.queues ∧
      (s.submit tl f).2.2 = [Event.push f]) ∧
    (s.submit tl f).2.1 = { task := f } := by
  refine ⟨?_, ?_, ?_⟩
  · intro k q hk hq
    have hs : s.submit tl f = (s.store_deque k (q ++ [f]), { task := f }, [Event.push_back k f]) := by
      simp [ThreadPool.submit, hk, hq, LockFreeWorkStealingQueue.push_back]
    rw [hs]
    refine ⟨rfl, deque_at_store_deque_self s k q _ hq, ?_, ?_, rfl, rfl⟩
    · intro j hj
      simp [ThreadPool.store_deque, List.getElem?_set, Ne.symm hj]
    · simp [ThreadPool.store_deque]
  · intro hk
    simp [ThreadPool.submit, hk, ThreadSafeQueue.push]
  · simp only [ThreadPool.submit]
    split
    · split <;> rfl
    · rfl

/-! ### One scheduling attempt -/

theorem pop_task_from_local_queue_some (s : ThreadPool) (tl : ThreadLocal) (k : Nat)
    (q : LockFreeWorkStealingQueue) (t : TaskType) (hk : tl.local_queue = some k)
    (hq : s.deque_at k = some (q ++ [t])) :
    s.pop_task_from_local_queue tl
      = (some t, s.store_deque k q, [Event.try_pop_back k (some t)]) := by
  simp [ThreadPool.pop_task_from_local_queue, hk, hq, try_pop_back_append]

theorem pop_task_from_local_queue_none (s : ThreadPool) (tl : ThreadLocal)
    (h : tl.own_deque_empty s) :
    s.pop_task_from_local_queue tl = (none, s, tl.failed_local_pop) := by
  unfold ThreadPool.pop_task_from_local_queue ThreadLocal.failed_local_pop
  cases hk : tl.local_queue with
  | none => rfl
  | some k =>
    rcases h k hk with h0 | h0
    · simp [h0]
    · simp [h0, try_pop_back_nil]

theorem invoked_tasks_append (a b : List Event) :
    invoked_tasks (a ++ b) = invoked_tasks a ++ invoked_tasks b := by
  induction a with
  | nil => rfl
  | cons e a ih => cases e <;> simp [invoked_tasks, ih]

theorem invoked_tasks_failed_local_pop (tl : ThreadLocal) :
    invoked_tasks tl.failed_local_pop = [] := by
  unfold ThreadLocal.failed_local_pop
  cases tl.local_queue <;> rfl

theorem steal_loop_none (s : ThreadPool) (idx sz : Nat) :
    ∀ (remaining i : Nat), (s.steal_loop idx sz remaining i).1 = none →
      (s.steal_loop idx sz remaining i).2.1 = s ∧
      invoked_tasks (s.steal_loop idx sz remaining i).2.2 = [] := by
  intro remaining
  induction remaining with
  | zero => intro i _; exact ⟨rfl, rfl⟩
  | succ r ih =>
    intro i h
    simp only [ThreadPool.steal_loop] at h ⊢
    split
    · rename_i hq
      simp only [hq] at h
      exact ⟨(ih (i + 1) h).1, by simpa [invoked_tasks] using (ih (i + 1) h).2⟩
    · rename_i q hq
      simp only [hq] at h
      split
      · rename_i t q' ht
        simp [ht] at h
      · rename_i ht
        simp only [ht] at h
        exact ⟨(ih (i + 1) h).1, by simpa [invoked_tasks] using (ih (i + 1) h).2⟩

/-- The four cases of one scheduling attempt, by the tier that yields the task. -/
theorem run_pending_task_tiers (s : ThreadPool) (tl : ThreadLocal) :
    (∀ k q t, tl.local_queue = some k → s.deque_at k = some (q ++ [t]) →
      s.run_pending_task tl
        = (s.store_deque k q, [Event.try_pop_back k (some t), Event.invoke t])) ∧
    (∀ t rest, tl.own_deque_empty s → s.pool_queue = t :: rest →
      s.run_pending_task tl
        = ({ s with pool_queue := rest },
           tl.failed_local_pop ++ [Event.try_pop (some t), Event.invoke t])) ∧
    (∀ t, tl.own_deque_empty s → s.pool_queue = [] →
      (s.pop_task_from_other_thread_queue tl).1 = some t →
      s.run_pending_task tl
        = ((s.pop_task_from_other_thread_queue tl).2.1,
           tl.failed_local_pop ++ [Event.try_pop none]
             ++ (s.pop_task_from_other_thread_queue tl).2.2 ++ [Event.invoke t])) ∧
    (tl.own_deque_empty s → s.pool_queue = [] →
      (s.pop_task_from_other_thread_queue tl).1 = none →
      s.run_pending_task tl
        = (s, tl.failed_local_pop ++ [Event.try_pop none]
             ++ (s.pop_task_from_other_thread_queue tl).2.2 ++ [Event.yield]) ∧
      invoked_tasks (s.run_pending_task tl).2 = []) := by
  refine ⟨?_, ?_, ?_, ?_⟩
  · intro k q t hk hq
    simp [ThreadPool.run_pending_task, pop_task_from_local_queue_some s tl k q t hk hq]
  · intro t rest hl hp
    simp [ThreadPool.run_pending_task, pop_task_from_local_queue_none s tl hl,
      ThreadPool.pop_task_from_pool_queue, ThreadSafeQueue.try_pop, hp]
  · intro t hl hp hs
    have hpool : s.pop_task_from_pool_queue = (none, s, [Event.try_pop none]) := by
      simp [ThreadPool.pop_task_from_pool_queue, ThreadSafeQueue.try_pop, hp]
    simp only [ThreadPool.run_pending_task, pop_task_from_local_queue_none s tl hl, hpool]
    generalize s.pop_task_from_other_thread_queue tl = r at hs ⊢
    obtain ⟨r1, r2, r3⟩ := r
    simp only at hs
    subst hs
    rfl
  · intro hl hp hs
    have hpool : s.pop_task_from_pool_queue = (none, s, [Event.try_pop none]) := by
      simp [ThreadPool.pop_task_from_pool_queue, ThreadSafeQueue.try_pop, hp]
    have hst := steal_loop_none s tl.idx s.cur_queues_size s.cur_queues_size 0 hs
    have hrun : s.run_pending_task tl
        = (s, tl.failed_local_pop ++ [Event.try_pop none]
             ++ (s.pop_task_from_other_thread_queue tl).2.2 ++ [Event.yield]) := by
      simp only [ThreadPool.run_pending_task, pop_task_from_local_queue_none s tl hl, hpool]
      have hstate : (s.pop_task_from_other_thread_queue tl).2.1 = s := hst.1
      generalize s.pop_task_from_other_thread_queue tl = r at hs hstate ⊢
      obtain ⟨r1, r2, r3⟩ := r
      simp only at hs hstate
      subst hs
      subst hstate
      rfl
    refine ⟨hrun, ?_⟩
    rw [hrun]
    have h3 : invoked_tasks (s.pop_task_from_other_thread_queue tl).2.2 = [] := hst.2
    simp [invoked_tasks_append, invoked_tasks_failed_local_pop, h3, invoked_tasks]

/-- C2. Three-tier acquisition priority. One scheduling attempt takes its task
from the first tier that yields one. (1) When the worker's own deque holds a
task, the attempt is one `try_pop_back` on that deque followed by the
invocation of the task popped: no `try_pop` and no steal is made. (2) When the
own deque is empty and the fallback queue is not, the attempt is the failed
first tier, one `try_pop` and the invocation of the task popped: no steal is
made. (3) When both are empty the steal scan runs; a task it returns is
invoked. (4) When the steal scan fails too, nothing is invoked, the state is
unchanged and the last operation is the yield. -/
theorem run_pending_task_priority (s : ThreadPool) (tl : ThreadLocal) :
    (∀ k q t, tl.local_queue = some k → s.deque_at k = some (q ++ [t]) →
      s.run_pending_task tl
        = (s.store_deque k q, [Event.try_pop_back k (some t), Event.invoke t])) ∧
    (∀ t rest, tl.own_deque_empty s → s.pool_queue = t :: rest →
      s.run_pending_task tl
        = ({ s with pool_queue := rest },
           tl.failed_local_pop ++ [Event.try_pop (some t), Event.invoke t])) ∧
    (∀ t, tl.own_deque_empty s → s.pool_queue = [] →
      (s.pop_task_from_other_thread_queue tl).1 = some t →
      s.run_pending_task tl
        = ((s.pop_task_from_other_thread_queue tl).2.1,
           tl.failed_local_pop ++ [Event.try_pop none]
             ++ (s.pop_task_from_other_thread_queue tl).2.2 ++ [Event.invoke t])) ∧
    (tl.own_deque_empty s → s.pool_queue = [] →
      (s.pop_task_from_other_thread_queue tl).1 = none →
      s.run_pending_task tl
        = (s, tl.failed_local_pop ++ [Event.try_pop none]
             ++ (s.pop_task_from_other_thread_queue tl).2.2 ++ [Event.yield]) ∧
      invoked_tasks (s.run_pending_task tl).2 = []) :=
  run_pending_task_tiers s tl

/-! ### The steal scan -/

theorem getLast_cons_of_ne_nil {α : Type} (a : α) (l : List α) (h : l ≠ []) :
    (a :: l).getLast? = l.getLast? := by
  cases l with
  | nil => exact absurd rfl h
  | cons b l => simp [List.getLast?_cons_cons]

theorem steal_index_eq (k n i : Nat) (h : k + 1 + i < 2 ^ 32) :
    steal_index k n i = (k + 1 + i) % n := by
  unfold steal_index
  rw [Nat.mod_eq_of_lt h]

theorem steal_order_lt (k n j : Nat) (hj : j ∈ steal_order k n) : j < n := by
  simp only [steal_order, List.mem_map, List.mem_range] at hj
  obtain ⟨i, hi, rfl⟩ := hj
  exact Nat.mod_lt _ (by omega)

theorem steal_order_nodup (k n : Nat) : (steal_order k n).Nodup := by
  unfold steal_order
  refine List.Nodup.map_on ?_ (List.nodup_range n)
  intro i hi j hj hij
  rw [List.mem_range] at hi hj
  have h1 : (k + 1 + i) ≡ (k + 1 + j) [MOD n] := hij
  have h2 : i ≡ j [MOD n] := Nat.ModEq.add_left_cancel' (k + 1) h1
  have h3 : i % n = j % n := h2
  rwa [Nat.mod_eq_of_lt hi, Nat.mod_eq_of_lt hj] at h3

theorem steal_order_length (k n : Nat) : (steal_order k n).length = n := by
  simp [steal_order]

/-- The slots the loop probes when it is entered with counter `i` and
`remaining` iterations to go, if no probe succeeds. -/
theorem steal_loop_fail (s : ThreadPool) (idx sz : Nat) :
    ∀ (remaining i : Nat),
      (∀ j ∈ (List.range' i remaining).map (steal_index idx sz), s.stealable j = none) →
      (s.steal_loop idx sz remaining i).1 = none ∧
      (s.steal_loop idx sz remaining i).2.1 = s ∧
      probed_slots (s.steal_loop idx sz remaining i).2.2
        = (List.range' i remaining).map (steal_index idx sz) := by
  intro remaining
  induction remaining with
  | zero => intro i _; exact ⟨rfl, rfl, rfl⟩
  | succ r ih =>
    intro i h
    have hhead : s.stealable (steal_index idx sz i) = none :=
      h _ (by simp [List.range'_succ])
    have htail := ih (i + 1) (fun j hj => h j (by
      simp only [List.range'_succ, List.map_cons, List.mem_cons]
      exact Or.inr hj))
    simp only [ThreadPool.steal_loop, List.range'_succ, List.map_cons]
    split
    · exact ⟨htail.1, htail.2.1, by simp [probed_slots, htail.2.2]⟩
    · rename_i q hq
      split
      · rename_i t q' ht
        cases q with
        | nil => simp [LockFreeWorkStealingQueue.try_steal_front] at ht
        | cons a q0 => simp [ThreadPool.stealable, hq] at hhead
      · exact ⟨htail.1, htail.2.1, by simp [probed_slots, htail.2.2]⟩

/-- The loop stops at the first slot of its order whose probe succeeds. -/
theorem steal_loop_success (s : ThreadPool) (idx sz : Nat) :
    ∀ (remaining i : Nat) (pre post : List Nat) (j : Nat) (t : TaskType)
      (q : LockFreeWorkStealingQueue),
      (List.range' i remaining).map (steal_index idx sz) = pre ++ j :: post →
      (∀ x ∈ pre, s.stealable x = none) →
      s.deque_at j = some (t :: q) →
      (s.steal_loop idx sz remaining i).1 = some t ∧
      (s.steal_loop idx sz remaining i).2.1 = s.store_deque j q ∧
      probed_slots (s.steal_loop idx sz remaining i).2.2 = pre ++ [j] ∧
      (s.steal_loop idx sz remaining i).2.2.getLast?
        = some (Event.try_steal_front j (some t)) ∧
      invoked_tasks (s.steal_loop idx sz remaining i).2.2 = [] := by
  intro remaining
  induction remaining with
  | zero =>
    intro i pre post j t q h
    simp at h
  | succ r ih =>
    intro i pre post j t q h hpre hj
    simp only [List.range'_succ, List.map_cons] at h
    cases pre with
    | nil =>
      simp only [List.nil_append, List.cons.injEq] at h
      obtain ⟨h1, -⟩ := h
      simp [ThreadPool.steal_loop, h1, hj, LockFreeWorkStealingQueue.try_steal_front,
        probed_slots, invoked_tasks]
    | cons x pre' =>
      simp only [List.cons_append, List.cons.injEq] at h
      obtain ⟨h1, h2⟩ := h
      have hx : s.stealable (steal_index idx sz i) = none := by
        rw [h1]; exact hpre x (by simp)
      have htail := ih (i + 1) pre' post j t q h2 (fun y hy => hpre y (by simp [hy])) hj
      have hne : (s.steal_loop idx sz r (i + 1)).2.2 ≠ [] := by
        intro h0
        have := htail.2.2.2.1
        simp [h0] at this
      simp only [ThreadPool.steal_loop]
      split
      · refine ⟨htail.1, htail.2.1, by simp [probed_slots, htail.2.2.1, h1], ?_, ?_⟩
        · exact (getLast_cons_of_ne_nil _ _ hne).trans htail.2.2.2.1
        · simpa [invoked_tasks] using htail.2.2.2.2
      · rename_i q1 hq1
        split
        · rename_i t1 q2 ht
          cases q1 with
          | nil => simp [LockFreeWorkStealingQueue.try_steal_front] at ht
          | cons a q0 => simp [ThreadPool.stealable, hq1] at hx
        · refine ⟨htail.1, htail.2.1, by simp [probed_slots, htail.2.2.1, h1], ?_, ?_⟩
          · exact (getLast_cons_of_ne_nil _ _ hne).trans htail.2.2.2.1
          · simpa [invoked_tasks] using htail.2.2.2.2

theorem steal_loop_none_iff (s : ThreadPool) (idx sz : Nat) :
    ∀ (remaining i : Nat),
      (s.steal_loop idx sz remaining i).1 = none ↔
      ∀ j ∈ (List.range' i remaining).map (steal_index idx sz), s.stealable j = none := by
  intro remaining
  induction remaining with
  | zero => intro i; simp [ThreadPool.steal_loop]
  | succ r ih =>
    intro i
    simp only [List.range'_succ, List.map_cons, List.forall_mem_cons, ← ih (i + 1)]
    simp only [ThreadPool.steal_loop, ThreadPool.stealable]
    split
    · rename_i hq
      simp [hq]
    · rename_i q hq
      cases q with
      | nil => simp [hq, LockFreeWorkStealingQueue.try_steal_front]
      | cons a q0 => simp [hq, LockFreeWorkStealingQueue.try_steal_front]

theorem steal_pass_eq_steal_order (k n : Nat) (hn : n ≤ 2147483647) (hk : k < n) :
    (List.range' 0 n).map (steal_index k n) = steal_order k n := by
  unfold steal_order
  rw [← List.range_eq_range']
  apply List.map_congr_left
  intro i hi
  rw [List.mem_range] at hi
  exact steal_index_eq k n i (by omega)

theorem first_success_split (s : ThreadPool) :
    ∀ (l : List Nat), (∀ j ∈ l, s.stealable j = none) ∨
      ∃ pre j post t q, l = pre ++ j :: post ∧ (∀ x ∈ pre, s.stealable x = none) ∧
        s.deque_at j = some (t :: q) := by
  intro l
  induction l with
  | nil => left; simp
  | cons a l ih =>
    cases ha : s.stealable a with
    | some t =>
      right
      unfold ThreadPool.stealable at ha
      split at ha
      · rename_i t0 q hq
        exact ⟨[], a, l, t0, q, rfl, by simp, hq⟩
      · exact absurd ha (by simp)
    | none =>
      rcases ih with h | ⟨pre, j, post, t, q, hl, hpre, hj⟩
      · left
        intro j hj
        rcases List.mem_cons.mp hj with rfl | hj
        · exact ha
        · exact h j hj
      · right
        refine ⟨a :: pre, j, post, t, q, by simp [hl], ?_, hj⟩
        intro x hx
        rcases List.mem_cons.mp hx with rfl | hx
        · exact ha
        · exact hpre x hx

theorem steal_loop_stolen_from (s : ThreadPool) (idx sz : Nat) :
    ∀ (remaining i : Nat),
      stolen_from (s.steal_loop idx sz remaining i).2.2
        = (probed_slots (s.steal_loop idx sz remaining i).2.2).filter
            (fun j => (s.deque_at j).isSome) := by
  intro remaining
  induction remaining with
  | zero => intro i; rfl
  | succ r ih =>
    intro i
    simp only [ThreadPool.steal_loop]
    split
    · rename_i hq
      simp [stolen_from, probed_slots, hq, ih (i + 1)]
    · rename_i q hq
      split
      · simp [stolen_from, probed_slots, hq]
      · simp [stolen_from, probed_slots, hq, ih (i + 1)]

/-- C4. Steal scan order. With no constructed slot the scan probes nothing
and fails. With `n` constructed slots (`n` in the range of the loop counter,
an `int`) and own index `k < n`, the slots are probed in the round-robin order
`(k+1) mod n, ..., (k+n) mod n`, which has no repetition and only indices
below `n`: the slots probed are an initial segment of that order; the scan
stops at the first slot whose steal succeeds and returns the front task of
its deque; it fails exactly when every probe of the pass fails, and then it
has probed the whole order and left the state unchanged. -/
theorem steal_scan_order (s : ThreadPool) (tl : ThreadLocal) :
    (s.cur_queues_size = 0 → s.pop_task_from_other_thread_queue tl = (none, s, [])) ∧
    (s.cur_queues_size ≤ 2147483647 → tl.idx < s.cur_queues_size →
      (steal_order tl.idx s.cur_queues_size).Nodup ∧
      (∀ j ∈ steal_order tl.idx s.cur_queues_size, j < s.cur_queues_size) ∧
      (∃ m, probed_slots (s.pop_task_from_other_thread_queue tl).2.2
          = (steal_order tl.idx s.cur_queues_size).take m) ∧
      (probed_slots (s.pop_task_from_other_thread_queue tl).2.2).Nodup ∧
      (∀ j ∈ probed_slots (s.pop_task_from_other_thread_queue tl).2.2, j < s.cur_queues_size) ∧
      (∀ pre j post t q, steal_order tl.idx s.cur_queues_size = pre ++ j :: post →
        (∀ x ∈ pre, s.stealable x = none) → s.deque_at j = some (t :: q) →
        (s.pop_task_from_other_thread_queue tl).1 = some t ∧
        (s.pop_task_from_other_thread_queue tl).2.1 = s.store_deque j q ∧
        probed_slots (s.pop_task_from_other_thread_queue tl).2.2 = pre ++ [j]) ∧
      ((s.pop_task_from_other_thread_queue tl).1 = none ↔
        ∀ j ∈ steal_order tl.idx s.cur_queues_size, s.stealable j = none) ∧
      ((s.pop_task_from_other_thread_queue tl).1 = none →
        (s.pop_task_from_other_thread_queue tl).2.1 = s ∧
        probed_slots (s.pop_task_from_other_thread_queue tl).2.2
          = steal_order tl.idx s.cur_queues_size)) := by
  refine ⟨?_, ?_⟩
  · intro h0
    simp [ThreadPool.pop_task_from_other_thread_queue, h0, ThreadPool.steal_loop]
  · intro hn hk
    have hpass := steal_pass_eq_steal_order tl.idx s.cur_queues_size hn hk
    have hnd := steal_order_nodup tl.idx s.cur_queues_size
    have hlt := steal_order_lt tl.idx s.cur_queues_size
    have hiff : (s.pop_task_from_other_thread_queue tl).1 = none ↔
        ∀ j ∈ steal_order tl.idx s.cur_queues_size, s.stealable j = none := by
      rw [← hpass]
      exact steal_loop_none_iff s tl.idx s.cur_queues_size s.cur_queues_size 0
    have hfail : (s.pop_task_from_other_thread_queue tl).1 = none →
        (s.pop_task_from_other_thread_queue tl).2.1 = s ∧
        probed_slots (s.pop_task_from_other_thread_queue tl).2.2
          = steal_order tl.idx s.cur_queues_size := by
      intro h
      have hall := hiff.mp h
      rw [← hpass] at hall ⊢
      have := steal_loop_fail s tl.idx s.cur_queues_size s.cur_queues_size 0 hall
      exact ⟨this.2.1, this.2.2⟩
    have hsucc : ∀ pre j post t q, steal_order tl.idx s.cur_queues_size = pre ++ j :: post →
        (∀ x ∈ pre, s.stealable x = none) → s.deque_at j = some (t :: q) →
        (s.pop_task_from_other_thread_queue tl).1 = some t ∧
        (s.pop_task_from_other_thread_queue tl).2.1 = s.store_deque j q ∧
        probed_slots (s.pop_task_from_other_thread_queue tl).2.2 = pre ++ [j] := by
      intro pre j post t q hsplit hpre hj
      rw [← hpass] at hsplit
      have := steal_loop_success s tl.idx s.cur_queues_size s.cur_queues_size 0
        pre post j t q hsplit hpre hj
      exact ⟨this.1, this.2.1, this.2.2.1⟩
    have htake : ∃ m, probed_slots (s.pop_task_from_other_thread_queue tl).2.2
        = (steal_order tl.idx s.cur_queues_size).take m := by
      rcases first_success_split s (steal_order tl.idx s.cur_queues_size) with
        h | ⟨pre, j, post, t, q, hl, hpre, hj⟩
      · exact ⟨s.cur_queues_size, by
          rw [(hfail (hiff.mpr h)).2, List.take_of_length_le]
          rw [steal_order_length]⟩
      · refine ⟨pre.length + 1, ?_⟩
        rw [(hsucc pre j post t q hl hpre hj).2.2, hl]
        simp [List.take_append_eq_append_take]
    obtain ⟨m, hm⟩ := htake
    refine ⟨hnd, hlt, ⟨m, hm⟩, ?_, ?_, hsucc, hiff, hfail⟩
    · rw [hm]
      exact hnd.sublist (List.take_sublist _ _)
    · intro j hj
      rw [hm] at hj
      exact hlt j (List.mem_of_mem_take hj)

theorem steal_order_own_last (k n : Nat) (hk : k < n) :
    steal_order k n = (List.range (n - 1)).map (fun i => (k + 1 + i) % n) ++ [k] := by
  obtain ⟨m, rfl⟩ : ∃ m, n = m + 1 := ⟨n - 1, by omega⟩
  have hlast : (k + 1 + m) % (m + 1) = k := by
    rw [show k + 1 + m = k + (m + 1) by ring, Nat.add_mod_right, Nat.mod_eq_of_lt hk]
  simp [steal_order, List.range_succ, hlast]

theorem own_slot_split {l sib pre post : List Nat} {k j : Nat} (h1 : l = sib ++ [k])
    (h2 : l = pre ++ j :: post) (hnd : l.Nodup) (hmem : k ∈ pre ++ [j]) :
    j = k ∧ post = [] := by
  rcases List.eq_nil_or_concat post with rfl | ⟨L, b, rfl⟩
  · have h3 : (sib ++ [k]).getLast? = (pre ++ [j]).getLast? := by rw [← h1, ← h2]
    simp at h3
    exact ⟨h3.symm, rfl⟩
  · exfalso
    rw [List.concat_eq_append] at h2
    have h4 : pre ++ j :: (L ++ [b]) = (pre ++ j :: L) ++ [b] := by simp
    have h3 : (sib ++ [k]).getLast? = ((pre ++ j :: L) ++ [b]).getLast? := by
      rw [← h1, ← h4, ← h2]
    rw [List.getLast?_concat, List.getLast?_concat] at h3
    have hb : k = b := Option.some.inj h3
    subst hb
    have h5 : l = (pre ++ [j]) ++ (L ++ [k]) := by rw [h2]; simp
    rw [h5, List.nodup_append] at hnd
    exact hnd.2.2 hmem (by simp)

/-- C5, as amended. With `n` constructed slots (`n` in the range of the loop
counter) and own index `k < n`, the scan order is the `n - 1` sibling slots
`(k+1) mod n, ..., (k+n-1) mod n`, all different from `k`, followed by the own
slot `k` as the last probe. The own slot is probed only as that last probe,
after every sibling probe of the pass has failed, and it is probed whenever
every sibling probe fails; `try_steal_front` is called on exactly the probed
slots that hold a deque. -/
theorem steal_targets (s : ThreadPool) (tl : ThreadLocal)
    (hn : s.cur_queues_size ≤ 2147483647) (hk : tl.idx < s.cur_queues_size) :
    steal_order tl.idx s.cur_queues_size
      = (List.range (s.cur_queues_size - 1)).map
          (fun i => (tl.idx + 1 + i) % s.cur_queues_size) ++ [tl.idx] ∧
    (∀ j ∈ (List.range (s.cur_queues_size - 1)).map
        (fun i => (tl.idx + 1 + i) % s.cur_queues_size), j ≠ tl.idx) ∧
    (tl.idx ∈ probed_slots (s.pop_task_from_other_thread_queue tl).2.2 →
      probed_slots (s.pop_task_from_other_thread_queue tl).2.2
        = steal_order tl.idx s.cur_queues_size ∧
      ∀ j ∈ steal_order tl.idx s.cur_queues_size, j ≠ tl.idx → s.stealable j = none) ∧
    ((∀ j ∈ steal_order tl.idx s.cur_queues_size, j ≠ tl.idx → s.stealable j = none) →
      probed_slots (s.pop_task_from_other_thread_queue tl).2.2
        = steal_order tl.idx s.cur_queues_size) ∧
    stolen_from (s.pop_task_from_other_thread_queue tl).2.2
      = (probed_slots (s.pop_task_from_other_thread_queue tl).2.2).filter
          (fun j => (s.deque_at j).isSome) := by
  have hpass := steal_pass_eq_steal_order tl.idx s.cur_queues_size hn hk
  have hnd := steal_order_nodup tl.idx s.cur_queues_size
  have hlast := steal_order_own_last tl.idx s.cur_queues_size hk
  have hfail : (∀ j ∈ steal_order tl.idx s.cur_queues_size, s.stealable j = none) →
      probed_slots (s.pop_task_from_other_thread_queue tl).2.2
        = steal_order tl.idx s.cur_queues_size := by
    intro hall
    rw [← hpass] at hall ⊢
    exact (steal_loop_fail s tl.idx s.cur_queues_size s.cur_queues_size 0 hall).2.2
  have hsucc : ∀ pre j post t q, steal_order tl.idx s.cur_queues_size = pre ++ j :: post →
      (∀ x ∈ pre, s.stealable x = none) → s.deque_at j = some (t :: q) →
      probed_slots (s.pop_task_from_other_thread_queue tl).2.2 = pre ++ [j] := by
    intro pre j post t q hsplit hpre hj
    rw [← hpass] at hsplit
    exact (steal_loop_success s tl.idx s.cur_queues_size s.cur_queues_size 0
      pre post j t q hsplit hpre hj).2.2.1
  refine ⟨hlast, ?_, ?_, ?_, ?_⟩
  · intro j hj hjk
    rw [hlast, List.nodup_append] at hnd
    exact hnd.2.2 hj (by simp [hjk])
  · intro hmem
    rcases first_success_split s (steal_order tl.idx s.cur_queues_size) with
      h | ⟨pre, j, post, t, q, hl, hpre, hj⟩
    · exact ⟨hfail h, fun j hj _ => h j hj⟩
    · have hp := hsucc pre j post t q hl hpre hj
      rw [hp] at hmem
      obtain ⟨hjk, hpost⟩ := own_slot_split hlast hl hnd hmem
      subst hpost
      refine ⟨by rw [hp, hl], ?_⟩
      intro x hx hxk
      rw [hl] at hx
      rcases List.mem_append.mp hx with hx | hx
      · exact hpre x hx
      · simp only [List.mem_singleton] at hx
        exact absurd (hx.trans hjk) hxk
  · intro hsib
    rcases first_success_split s (steal_order tl.idx s.cur_queues_size) with
      h | ⟨pre, j, post, t, q, hl, hpre, hj⟩
    · exact hfail h
    · have hp := hsucc pre j post t q hl hpre hj
      have hjk : j = tl.idx := by
        by_contra hne
        have := hsib j (by rw [hl]; simp) hne
        simp [ThreadPool.stealable, hj] at this
      obtain ⟨-, hpost⟩ := own_slot_split hlast hl hnd (by simp [hjk])
      subst hpost
      rw [hp, hl]
  · exact steal_loop_stolen_from s tl.idx s.cur_queues_size s.cur_queues_size 0

/-! ### Conservation of tasks -/

theorem deque_at_eq_some (s : ThreadPool) (k : Nat) (q : LockFreeWorkStealingQueue) :
    s.deque_at k = some q ↔ s.queues[k]? = some (some q) := by
  unfold ThreadPool.deque_at
  split
  · rename_i q0 h0
    simp [h0]
  · rename_i h0
    constructor
    · intro h; exact absurd h (by simp)
    · intro h; exact absurd h (h0 q)

theorem held_by_deques_set (qs : List (Option LockFreeWorkStealingQueue)) :
    ∀ (k : Nat) (q : LockFreeWorkStealingQueue), qs[k]? = some (some q) →
      ∃ A B, held_by_deques qs = A ++ q ++ B ∧
        ∀ q', held_by_deques (qs.set k (some q')) = A ++ q' ++ B := by
  induction qs with
  | nil => intro k q h; simp at h
  | cons a qs ih =>
    intro k q h
    cases k with
    | zero =>
      simp only [List.getElem?_cons_zero, Option.some.injEq] at h
      subst h
      exact ⟨[], held_by_deques qs, by simp [held_by_deques], by simp [held_by_deques]⟩
    | succ k =>
      simp only [List.getElem?_cons_succ] at h
      obtain ⟨A, B, h1, h2⟩ := ih k q h
      cases a with
      | none => exact ⟨A, B, by simp [held_by_deques, h1], by simp [held_by_deques, h2]⟩
      | some q0 =>
        exact ⟨q0 ++ A, B, by simp [held_by_deques, h1], by simp [held_by_deques, h2]⟩

theorem held_store_deque (s : ThreadPool) (k : Nat) (q : LockFreeWorkStealingQueue)
    (h : s.deque_at k = some q) :
    ∃ A B, s.held = A ++ q ++ B ++ s.pool_queue ∧
      ∀ q', (s.store_deque k q').held = A ++ q' ++ B ++ s.pool_queue := by
  obtain ⟨A, B, h1, h2⟩ := held_by_deques_set s.queues k q ((deque_at_eq_some s k q).mp h)
  exact ⟨A, B, by simp [ThreadPool.held, h1], by
    intro q'
    simp [ThreadPool.held, ThreadPool.store_deque, h2]⟩

theorem removes_count (s s' : ThreadPool) (t : TaskType) (h : s.removes t s') (a : TaskType) :
    s.held.count a = (t :: s'.held).count a := by
  rcases h with ⟨k, q, hq, rfl⟩ | ⟨k, q, hq, rfl⟩ | ⟨rest, hp, rfl⟩
  · obtain ⟨A, B, h1, h2⟩ := held_store_deque s k _ hq
    rw [h1, h2 q]
    simp only [List.count_append, List.count_cons, List.count_nil]
    omega
  · obtain ⟨A, B, h1, h2⟩ := held_store_deque s k _ hq
    rw [h1, h2 q]
    simp only [List.count_append, List.count_cons, List.count_nil]
    omega
  · simp only [ThreadPool.held, hp, List.count_append, List.count_cons]
    omega

theorem isSome_deque_at_store_deque (s : ThreadPool) (k j : Nat)
    (q q' : LockFreeWorkStealingQueue) (h : s.deque_at k = some q) :
    ((s.store_deque k q').deque_at j).isSome = (s.deque_at j).isSome := by
  by_cases hj : j = k
  · subst hj
    rw [deque_at_store_deque_self s j q q' h, h]
    rfl
  · rw [deque_at_store_deque_other s k j q' hj]

theorem removes_shape (s s' : ThreadPool) (t : TaskType) (h : s.removes t s') (j : Nat) :
    (s'.deque_at j).isSome = (s.deque_at j).isSome := by
  rcases h with ⟨k, q, hq, rfl⟩ | ⟨k, q, hq, rfl⟩ | ⟨rest, hp, rfl⟩
  · exact isSome_deque_at_store_deque s k j _ q hq
  · exact isSome_deque_at_store_deque s k j _ q hq
  · rfl

theorem steal_loop_some (s : ThreadPool) (idx sz : Nat) :
    ∀ (remaining i : Nat) (t : TaskType), (s.steal_loop idx sz remaining i).1 = some t →
      s.removes t (s.steal_loop idx sz remaining i).2.1 ∧
      invoked_tasks (s.steal_loop idx sz remaining i).2.2 = [] := by
  intro remaining
  induction remaining with
  | zero => intro i t h; simp [ThreadPool.steal_loop] at h
  | succ r ih =>
    intro i t h
    simp only [ThreadPool.steal_loop] at h ⊢
    split
    · rename_i hq
      simp only [hq] at h
      exact ⟨(ih (i + 1) t h).1, by simpa [invoked_tasks] using (ih (i + 1) t h).2⟩
    · rename_i q hq
      simp only [hq] at h
      split
      · rename_i t1 q' ht
        simp only [ht, Option.some.injEq] at h
        subst h
        cases q with
        | nil => simp [LockFreeWorkStealingQueue.try_steal_front] at ht
        | cons a q0 =>
          simp only [LockFreeWorkStealingQueue.try_steal_front, Option.some.injEq,
            Prod.mk.injEq] at ht
          obtain ⟨rfl, rfl⟩ := ht
          exact ⟨Or.inr (Or.inl ⟨_, _, hq, rfl⟩), rfl⟩
      · rename_i ht
        simp only [ht] at h
        exact ⟨(ih (i + 1) t h).1, by simpa [invoked_tasks] using (ih (i + 1) t h).2⟩

theorem try_pop_back_some (q q' : LockFreeWorkStealingQueue) (t : TaskType)
    (h : q.try_pop_back = some (t, q')) : q = q' ++ [t] := by
  rcases List.eq_nil_or_concat q with rfl | ⟨L, b, rfl⟩
  · simp [LockFreeWorkStealingQueue.try_pop_back] at h
  · rw [List.concat_eq_append] at h ⊢
    rw [try_pop_back_append] at h
    simp only [Option.some.injEq, Prod.mk.injEq] at h
    obtain ⟨rfl, rfl⟩ := h
    rfl

/-- One scheduling attempt either invokes exactly one task, the one it removed
from exactly one queue, or invokes nothing and leaves the pool unchanged. -/
theorem run_pending_task_removes (s : ThreadPool) (tl : ThreadLocal) :
    (∃ t, invoked_tasks (s.run_pending_task tl).2 = [t] ∧
      s.removes t (s.run_pending_task tl).1) ∨
    (invoked_tasks (s.run_pending_task tl).2 = [] ∧ (s.run_pending_task tl).1 = s) := by
  have hlocal : (∃ t k q, s.deque_at k = some (q ++ [t]) ∧
      s.pop_task_from_local_queue tl
        = (some t, s.store_deque k q, [Event.try_pop_back k (some t)])) ∨
      tl.own_deque_empty s := by
    cases hk : tl.local_queue with
    | none => right; intro k h; rw [hk] at h; exact absurd h (by simp)
    | some k =>
      cases hq : s.deque_at k with
      | none =>
        right; intro k0 h; rw [hk] at h
        cases Option.some.inj h; exact Or.inl hq
      | some q =>
        rcases List.eq_nil_or_concat q with rfl | ⟨L, b, rfl⟩
        · right; intro k0 h; rw [hk] at h
          cases Option.some.inj h; exact Or.inr hq
        · left
          rw [List.concat_eq_append] at hq
          exact ⟨b, k, L, hq, pop_task_from_local_queue_some s tl k L b hk hq⟩
  rcases hlocal with ⟨t, k, q, hq, hpop⟩ | hempty
  · left
    refine ⟨t, ?_, ?_⟩
    · simp [ThreadPool.run_pending_task, hpop, invoked_tasks]
    · simp only [ThreadPool.run_pending_task, hpop]
      exact Or.inl ⟨k, q, hq, rfl⟩
  · have h2 := (run_pending_task_tiers s tl).2
    cases hp : s.pool_queue with
    | cons t rest =>
      left
      rw [h2.1 t rest hempty hp]
      refine ⟨t, ?_, Or.inr (Or.inr ⟨rest, hp, rfl⟩)⟩
      simp [invoked_tasks_append, invoked_tasks_failed_local_pop, invoked_tasks]
    | nil =>
      cases hs : (s.pop_task_from_other_thread_queue tl).1 with
      | none =>
        right
        have := h2.2.2 hempty hp hs
        exact ⟨this.2, by rw [this.1]⟩
      | some t =>
        left
        rw [h2.2.1 t hempty hp hs]
        have h3 := steal_loop_some s tl.idx s.cur_queues_size s.cur_queues_size 0 t hs
        have h4 : invoked_tasks (s.pop_task_from_other_thread_queue tl).2.2 = [] := h3.2
        refine ⟨t, ?_, h3.1⟩
        simp [invoked_tasks_append, invoked_tasks_failed_local_pop, invoked_tasks, h4]

theorem submit_count (s : ThreadPool) (tl : ThreadLocal) (f : TaskType) (h : tl.valid s)
    (a : TaskType) : (s.submit tl f).1.held.count a = (f :: s.held).count a := by
  cases hk : tl.local_queue with
  | none =>
    simp only [ThreadPool.submit, hk, ThreadPool.held, ThreadSafeQueue.push, List.count_append,
      List.count_cons, List.count_nil]
    omega
  | some k =>
    have hsome := h k hk
    cases hq : s.deque_at k with
    | none => simp [hq] at hsome
    | some q =>
      obtain ⟨A, B, h1, h2⟩ := held_store_deque s k q hq
      simp only [ThreadPool.submit, hk, hq, LockFreeWorkStealingQueue.push_back]
      rw [h1, h2 (q ++ [f])]
      simp only [List.count_append, List.count_cons, List.count_nil]
      omega

theorem submit_shape (s : ThreadPool) (tl : ThreadLocal) (f : TaskType) (j : Nat) :
    ((s.submit tl f).1.deque_at j).isSome = (s.deque_at j).isSome := by
  cases hk : tl.local_queue with
  | none => simp [ThreadPool.submit, hk, ThreadPool.deque_at]
  | some k =>
    cases hq : s.deque_at k with
    | none => simp [ThreadPool.submit, hk, hq]
    | some q =>
      simp only [ThreadPool.submit, hk, hq]
      exact isSome_deque_at_store_deque s k j q _ hq

theorem step_count (x : Execution) (st : Step) (h : st.thread.valid x.pool) (a : TaskType) :
    ((x.step st).pool.held ++ (x.step st).invoked).count a
      = (x.pool.held ++ x.invoked ++ submitted_tasks [st]).count a := by
  cases st with
  | submit tl f =>
    have := submit_count x.pool tl f h a
    simp only [Execution.step, submitted_tasks, List.count_append, List.count_cons,
      List.count_nil] at this ⊢
    omega
  | run_pending_task tl =>
    rcases run_pending_task_removes x.pool tl with ⟨t, hinv, hrem⟩ | ⟨hinv, hsame⟩
    · have := removes_count x.pool _ t hrem a
      simp only [Execution.step, submitted_tasks, hinv, List.count_append, List.count_cons,
        List.count_nil] at this ⊢
      omega
    · simp [Execution.step, submitted_tasks, hinv, hsame]

theorem step_shape (x : Execution) (st : Step) (j : Nat) :
    ((x.step st).pool.deque_at j).isSome = (x.pool.deque_at j).isSome := by
  cases st with
  | submit tl f => exact submit_shape x.pool tl f j
  | run_pending_task tl =>
    rcases run_pending_task_removes x.pool tl with ⟨t, -, hrem⟩ | ⟨-, hsame⟩
    · exact removes_shape x.pool _ t hrem j
    · simp [Execution.step, hsame]

theorem submitted_tasks_cons (st : Step) (steps : List Step) :
    submitted_tasks (st :: steps) = submitted_tasks [st] ++ submitted_tasks steps := by
  cases st <;> simp [submitted_tasks]

theorem run_count (steps : List Step) :
    ∀ (x : Execution), (∀ st ∈ steps, st.thread.valid x.pool) → ∀ a : TaskType,
      ((x.run steps).pool.held ++ (x.run steps).invoked).count a
        = (x.pool.held ++ x.invoked ++ submitted_tasks steps).count a := by
  induction steps with
  | nil => intro x _ a; simp [Execution.run, submitted_tasks]
  | cons st steps ih =>
    intro x h a
    have hst := step_count x st (h st (by simp)) a
    have hvalid : ∀ st' ∈ steps, st'.thread.valid (x.step st).pool := by
      intro st' hmem k hk
      rw [step_shape x st k]
      exact h st' (by simp [hmem]) k hk
    have hrest := ih (x.step st) hvalid a
    have hrun : x.run (st :: steps) = (x.step st).run steps := rfl
    rw [hrun, hrest, submitted_tasks_cons]
    simp only [List.count_append] at hst ⊢
    omega

/-- C3. Task conservation, exactly-once. For every sequence of atomic steps
(calls of `submit` and scheduling attempts, by threads whose `local_queue` is
null or points to a deque of the pool): the tasks held by the queues together
with the tasks invoked are, as a multiset, the tasks held and invoked at the
start together with the tasks submitted; so when these are pairwise distinct,
every one of them is afterwards either held exactly once by exactly one queue
and not invoked, or held by no queue and invoked exactly once. A single
scheduling attempt either removes exactly one task from exactly one queue and
invokes exactly that task once, or removes and invokes nothing. -/
theorem task_conservation (x : Execution) (steps : List Step)
    (hvalid : ∀ st ∈ steps, st.thread.valid x.pool) :
    List.Perm ((x.run steps).pool.held ++ (x.run steps).invoked)
      (x.pool.held ++ x.invoked ++ submitted_tasks steps) ∧
    ((x.pool.held ++ x.invoked ++ submitted_tasks steps).Nodup →
      ∀ t ∈ x.pool.held ++ x.invoked ++ submitted_tasks steps,
        ((x.run steps).pool.held.count t = 1 ∧ (x.run steps).invoked.count t = 0) ∨
        ((x.run steps).pool.held.count t = 0 ∧ (x.run steps).invoked.count t = 1)) ∧
    (∀ (s : ThreadPool) (tl : ThreadLocal),
      (∃ t, invoked_tasks (s.run_pending_task tl).2 = [t] ∧
        s.removes t (s.run_pending_task tl).1) ∨
      (invoked_tasks (s.run_pending_task tl).2 = [] ∧ (s.run_pending_task tl).1 = s)) := by
  refine ⟨?_, ?_, run_pending_task_removes⟩
  · rw [List.perm_iff_count]
    exact run_count steps x hvalid
  · intro hnd t ht
    have hc := run_count steps x hvalid t
    rw [List.count_eq_one_of_mem hnd ht, List.count_append] at hc
    omega

/-! ### The worker loop -/

theorem deque_at_set_done (s : ThreadPool) (b : Bool) (k : Nat) :
    (s.set_done b).deque_at k = s.deque_at k := rfl

theorem steal_loop_set_done (s : ThreadPool) (b : Bool) (idx sz : Nat) :
    ∀ (remaining i : Nat), (s.set_done b).steal_loop idx sz remaining i
      = ((s.steal_loop idx sz remaining i).1, (s.steal_loop idx sz remaining i).2.1.set_done b,
         (s.steal_loop idx sz remaining i).2.2) := by
  intro remaining
  induction remaining with
  | zero => intro i; rfl
  | succ r ih =>
    intro i
    cases hq : s.deque_at (steal_index idx sz i) with
    | none => simp [ThreadPool.steal_loop, deque_at_set_done, hq, ih (i + 1)]
    | some q =>
      cases ht : q.try_steal_front with
      | none => simp [ThreadPool.steal_loop, deque_at_set_done, hq, ht, ih (i + 1)]
      | some r0 =>
        simp only [ThreadPool.steal_loop, deque_at_set_done, hq, ht]
        rfl

/-- A scheduling attempt does not read `done`: it performs the same operations
and changes the queues in the same way whatever the value of the flag. -/
theorem run_pending_task_set_done (s : ThreadPool) (b : Bool) (tl : ThreadLocal) :
    (s.set_done b).run_pending_task tl
      = ((s.run_pending_task tl).1.set_done b, (s.run_pending_task tl).2) := by
  have hlocal : (s.set_done b).pop_task_from_local_queue tl
      = ((s.pop_task_from_local_queue tl).1, (s.pop_task_from_local_queue tl).2.1.set_done b,
         (s.pop_task_from_local_queue tl).2.2) := by
    cases hk : tl.local_queue with
    | none => simp [ThreadPool.pop_task_from_local_queue, hk]
    | some k =>
      cases hq : s.deque_at k with
      | none => simp [ThreadPool.pop_task_from_local_queue, deque_at_set_done, hk, hq]
      | some q =>
        cases ht : q.try_pop_back with
        | none => simp [ThreadPool.pop_task_from_local_queue, deque_at_set_done, hk, hq, ht]
        | some r0 =>
          simp only [ThreadPool.pop_task_from_local_queue, deque_at_set_done, hk, hq, ht]
          rfl
  have hpool : ∀ s0 : ThreadPool, (s0.set_done b).pop_task_from_pool_queue
      = (s0.pop_task_from_pool_queue.1, s0.pop_task_from_pool_queue.2.1.set_done b,
         s0.pop_task_from_pool_queue.2.2) := by
    intro s0
    have hq : (s0.set_done b).pool_queue = s0.pool_queue := rfl
    cases ht : s0.pool_queue.try_pop with
    | none => simp [ThreadPool.pop_task_from_pool_queue, hq, ht]
    | some r0 =>
      simp only [ThreadPool.pop_task_from_pool_queue, hq, ht]
      rfl
  have hsteal : ∀ s0 : ThreadPool, (s0.set_done b).pop_task_from_other_thread_queue tl
      = ((s0.pop_task_from_other_thread_queue tl).1,
         (s0.pop_task_from_other_thread_queue tl).2.1.set_done b,
         (s0.pop_task_from_other_thread_queue tl).2.2) := by
    intro s0
    exact steal_loop_set_done s0 b tl.idx s0.cur_queues_size s0.cur_queues_size 0
  simp only [ThreadPool.run_pending_task, hlocal]
  rcases s.pop_task_from_local_queue tl with ⟨r1, s1, e1⟩
  cases r1 with
  | some t => rfl
  | none =>
    simp only [hpool s1]
    rcases s1.pop_task_from_pool_queue with ⟨r2, s2, e2⟩
    cases r2 with
    | some t => rfl
    | none =>
      simp only [hsteal s2]
      rcases s2.pop_task_from_other_thread_queue tl with ⟨r3, s3, e3⟩
      cases r3 <;> rfl

theorem steal_loop_no_load (s : ThreadPool) (idx sz : Nat) (b : Bool) :
    ∀ (remaining i : Nat), Event.load_done b ∉ (s.steal_loop idx sz remaining i).2.2 := by
  intro remaining
  induction remaining with
  | zero => intro i; simp [ThreadPool.steal_loop]
  | succ r ih =>
    intro i
    simp only [ThreadPool.steal_loop]
    split
    · simpa using ih (i + 1)
    · split
      · simp
      · simpa using ih (i + 1)

/-- A scheduling attempt never reads `done`. -/
theorem run_pending_task_no_load (s : ThreadPool) (tl : ThreadLocal) (b : Bool) :
    Event.load_done b ∉ (s.run_pending_task tl).2 := by
  have hlocal : Event.load_done b ∉ (s.pop_task_from_local_queue tl).2.2 := by
    cases hk : tl.local_queue with
    | none => simp [ThreadPool.pop_task_from_local_queue, hk]
    | some k =>
      cases hq : s.deque_at k with
      | none => simp [ThreadPool.pop_task_from_local_queue, hk, hq]
      | some q =>
        cases ht : q.try_pop_back <;> simp [ThreadPool.pop_task_from_local_queue, hk, hq, ht]
  have hpool : ∀ s0 : ThreadPool, Event.load_done b ∉ s0.pop_task_from_pool_queue.2.2 := by
    intro s0
    cases ht : s0.pool_queue.try_pop <;> simp [ThreadPool.pop_task_from_pool_queue, ht]
  have hsteal : ∀ s0 : ThreadPool,
      Event.load_done b ∉ (s0.pop_task_from_other_thread_queue tl).2.2 := by
    intro s0
    exact steal_loop_no_load s0 tl.idx s0.cur_queues_size b s0.cur_queues_size 0
  simp only [ThreadPool.run_pending_task]
  rcases hl : s.pop_task_from_local_queue tl with ⟨r1, s1, e1⟩
  rw [hl] at hlocal
  cases r1 with
  | some t => simpa using hlocal
  | none =>
    dsimp only
    have hp := hpool s1
    rcases hq : s1.pop_task_from_pool_queue with ⟨r2, s2, e2⟩
    rw [hq] at hp
    cases r2 with
    | some t => simpa using ⟨hlocal, hp⟩
    | none =>
      dsimp only
      have hs := hsteal s2
      rcases hr : s2.pop_task_from_other_thread_queue tl with ⟨r3, s3, e3⟩
      rw [hr] at hs
      cases r3 <;> simpa using ⟨hlocal, hp, hs⟩

theorem worker_loop_done (tl : ThreadLocal) (e : Interference) (env : List Interference)
    (s : ThreadPool) (h : s.done = true) :
    ThreadPool.worker_loop tl (e :: env) s
      = { state := s, events := [Event.load_done true], exited := true } := by
  simp [ThreadPool.worker_loop, h]

theorem worker_loop_not_done (tl : ThreadLocal) (e : Interference) (env : List Interference)
    (s : ThreadPool) (h : s.done = false) :
    ThreadPool.worker_loop tl (e :: env) s
      = { ThreadPool.worker_loop tl env
            (e.after_attempt ((e.after_load s).run_pending_task tl).1) with
          events := Event.load_done false :: ((e.after_load s).run_pending_task tl).2
            ++ (ThreadPool.worker_loop tl env
                  (e.after_attempt ((e.after_load s).run_pending_task tl).1)).events } := by
  simp [ThreadPool.worker_loop, h]

theorem worker_loop_shape (tl : ThreadLocal) :
    ∀ (env : List Interference) (s : ThreadPool), ∃ attempts : List ThreadPool,
      attempts.length ≤ env.length ∧
      (ThreadPool.worker_loop tl env s).events
        = (attempts.map (fun st => Event.load_done false :: (st.run_pending_task tl).2)).flatten
          ++ (if (ThreadPool.worker_loop tl env s).exited then [Event.load_done true] else []) := by
  intro env
  induction env with
  | nil => intro s; exact ⟨[], by simp, by simp [ThreadPool.worker_loop]⟩
  | cons e env ih =>
    intro s
    cases h : s.done with
    | true => exact ⟨[], by simp, by simp [worker_loop_done tl e env s h]⟩
    | false =>
      obtain ⟨attempts, hlen, hev⟩ :=
        ih (e.after_attempt ((e.after_load s).run_pending_task tl).1)
      refine ⟨e.after_load s :: attempts, by simp [hlen], ?_⟩
      rw [worker_loop_not_done tl e env s h]
      simp [hev]

theorem append_split_of_not_mem {α : Type} {a b pre post : List α} {x : α}
    (h : a ++ b = pre ++ x :: post) (hx : x ∉ a) :
    ∃ mid, pre = a ++ mid ∧ b = mid ++ x :: post := by
  rcases List.append_eq_append_iff.mp h with ⟨a', h1, h2⟩ | ⟨c', h1, h2⟩
  · exact ⟨a', h1, h2⟩
  · cases c' with
    | nil => exact ⟨[], by simp [h1], by simpa using h2.symm⟩
    | cons y c' =>
      simp only [List.cons_append, List.cons.injEq] at h2
      exact absurd (by rw [h1, h2.1]; simp) hx

theorem worker_loop_last_load (tl : ThreadLocal) :
    ∀ (env : List Interference) (s : ThreadPool) (pre post : List Event),
      (ThreadPool.worker_loop tl env s).events = pre ++ Event.load_done true :: post →
      post = [] ∧ (ThreadPool.worker_loop tl env s).exited = true := by
  intro env
  induction env with
  | nil =>
    intro s pre post h
    simp [ThreadPool.worker_loop] at h
  | cons e env ih =>
    intro s pre post h
    cases hd : s.done with
    | true =>
      rw [worker_loop_done tl e env s hd] at h ⊢
      cases pre with
      | nil =>
        simp only [List.nil_append, List.cons.injEq] at h
        exact ⟨h.2.symm, rfl⟩
      | cons y pre => simp at h
    | false =>
      rw [worker_loop_not_done tl e env s hd] at h ⊢
      cases pre with
      | nil => simp at h
      | cons y pre =>
        simp only [List.cons_append, List.cons.injEq] at h
        obtain ⟨mid, -, h2⟩ := append_split_of_not_mem h.2
          (run_pending_task_no_load (e.after_load s) tl true)
        exact ih _ mid post h2

theorem worker_loop_append (tl : ThreadLocal) (env2 : List Interference) :
    ∀ (env1 : List Interference) (s : ThreadPool),
      (ThreadPool.worker_loop tl env1 s).exited = false →
      ThreadPool.worker_loop tl (env1 ++ env2) s
        = { ThreadPool.worker_loop tl env2 (ThreadPool.worker_loop tl env1 s).state with
            events := (ThreadPool.worker_loop tl env1 s).events
              ++ (ThreadPool.worker_loop tl env2 (ThreadPool.worker_loop tl env1 s).state).events } := by
  intro env1
  induction env1 with
  | nil => intro s _; simp [ThreadPool.worker_loop]
  | cons e env1 ih =>
    intro s h
    cases hd : s.done with
    | true => simp [worker_loop_done tl e env1 s hd] at h
    | false =>
      rw [worker_loop_not_done tl e env1 s hd] at h ⊢
      simp only [List.cons_append]
      rw [worker_loop_not_done tl e (env1 ++ env2) s hd, ih _ h]
      simp

/-- C6. Shutdown stops acquisition. (1) The operations of a worker are a
sequence of rounds, each one reading of `done` as unset followed by the
operations of exactly one scheduling attempt, ended by the reading of `done`
as set when the loop is left. (2) The reading of `done` as set is the last
operation of the worker: no pop, steal or invocation follows it, and the loop
is left. (3) When `done` is set at the top of the loop and the worker gets to
run, it leaves the loop having made that one reading and nothing else.
(4) When another thread sets `done` while the worker is inside an attempt
that began with the flag unset, the attempt performs all its operations,
the invocation included, as if the flag were unset, and only then is the
flag read, as set, and the loop left. -/
theorem worker_loop_shutdown (tl : ThreadLocal) :
    (∀ (env : List Interference) (s : ThreadPool), ∃ attempts : List ThreadPool,
      attempts.length ≤ env.length ∧
      (ThreadPool.worker_loop tl env s).events
        = (attempts.map (fun st => Event.load_done false :: (st.run_pending_task tl).2)).flatten
          ++ (if (ThreadPool.worker_loop tl env s).exited then [Event.load_done true] else [])) ∧
    (∀ (env : List Interference) (s : ThreadPool) (pre post : List Event),
      (ThreadPool.worker_loop tl env s).events = pre ++ Event.load_done true :: post →
      post = [] ∧ (ThreadPool.worker_loop tl env s).exited = true) ∧
    (∀ (env1 : List Interference) (e : Interference) (env2 : List Interference) (s : ThreadPool),
      (ThreadPool.worker_loop tl env1 s).exited = false →
      (ThreadPool.worker_loop tl env1 s).state.done = true →
      ThreadPool.worker_loop tl (env1 ++ e :: env2) s
        = { state := (ThreadPool.worker_loop tl env1 s).state,
            events := (ThreadPool.worker_loop tl env1 s).events ++ [Event.load_done true],
            exited := true }) ∧
    (∀ (e : Interference) (env : List Interference) (s : ThreadPool), s.done = false →
      ThreadPool.worker_loop tl (Interference.shutdown :: e :: env) s
        = { state := (s.run_pending_task tl).1.set_done true,
            events := Event.load_done false :: (s.run_pending_task tl).2
              ++ [Event.load_done true],
            exited := true }) := by
  refine ⟨worker_loop_shape tl, worker_loop_last_load tl, ?_, ?_⟩
  · intro env1 e env2 s hex hdone
    rw [worker_loop_append tl (e :: env2) env1 s hex, worker_loop_done tl e env2 _ hdone]
  · intro e env s hd
    rw [worker_loop_not_done tl _ _ s hd]
    simp only [Interference.shutdown, run_pending_task_set_done]
    rw [worker_loop_done tl e env _ rfl]

/-! ### Submission and the shutdown flag -/

/-- C7, as amended. `submit` does not read the shutdown flag. On a pool whose
flag is set, a call of `submit` by a thread whose `local_queue` is null or
points to a deque of the pool returns the future paired with the task,
leaves the flag set, and enqueues the task: the queues hold the task in
addition to what they held; the outcome is that of the same call on the
running pool, but for the flag. -/
theorem submit_ignores_done (s : ThreadPool) (tl : ThreadLocal) (f : TaskType)
    (hdone : s.done = true) (hvalid : tl.valid s) :
    (s.submit tl f).2.1 = { task := f } ∧
    (s.submit tl f).1.done = true ∧
    List.Perm (s.submit tl f).1.held (f :: s.held) ∧
    s.submit tl f = (((s.set_done false).submit tl f).1.set_done true,
      ((s.set_done false).submit tl f).2) := by
  have hs : s.set_done true = s := by
    cases s
    simp only [ThreadPool.set_done] at hdone ⊢
    simp [hdone]
  have hgen : ∀ (s0 : ThreadPool) (b : Bool), (s0.set_done b).submit tl f
      = ((s0.submit tl f).1.set_done b, (s0.submit tl f).2) := by
    intro s0 b
    cases hk : tl.local_queue with
    | none => simp [ThreadPool.submit, hk, ThreadPool.set_done]
    | some k =>
      cases hq : s0.deque_at k with
      | none => simp [ThreadPool.submit, hk, deque_at_set_done, hq]
      | some q =>
        simp only [ThreadPool.submit, hk, deque_at_set_done, hq]
        rfl
  have hfut : (s.submit tl f).2.1 = { task := f } := by
    cases hk : tl.local_queue with
    | none => simp [ThreadPool.submit, hk]
    | some k => cases hq : s.deque_at k <;> simp [ThreadPool.submit, hk, hq]
  refine ⟨hfut, ?_, ?_, ?_⟩
  · have := hgen s true
    rw [hs] at this
    rw [this]
    rfl
  · rw [List.perm_iff_count]
    exact submit_count s tl f hvalid
  · have h1 := hgen (s.set_done false) true
    have h2 : (s.set_done false).set_done true = s := by
      cases s
      simp only [ThreadPool.set_done] at hdone ⊢
      simp [hdone]
    rw [h2] at h1
    rw [h1]

/-! ### Teardown -/

/-- C9. Teardown order. The destruction sequence of a pool is: the store
`done = true`; the joining of every worker thread (by the destructor of
`joiner`); the release of `joiner` and of `threads`; and only then the release
of `pool_queue`, then of `queues`, then of the two atomics. So the flag is set
first, and whatever comes before the release of the fallback queue or of the
deques includes the store of the flag, every join, and the release of the
joiner and of the thread collection. -/
theorem teardown_order (s : ThreadPool) :
    s.destruct
      = [Teardown.set_done] ++ s.threads.map Teardown.join
        ++ [Teardown.release Member.joiner, Teardown.release Member.threads,
            Teardown.release Member.pool_queue, Teardown.release Member.queues,
            Teardown.release Member.cur_queues_size, Teardown.release Member.done] ∧
    s.destruct.head? = some Teardown.set_done ∧
    (∀ pre post m, (m = Member.pool_queue ∨ m = Member.queues) →
      s.destruct = pre ++ Teardown.release m :: post →
      Teardown.set_done ∈ pre ∧ (∀ i ∈ s.threads, Teardown.join i ∈ pre) ∧
      Teardown.release Member.joiner ∈ pre ∧ Teardown.release Member.threads ∈ pre ∧
      (∀ i, Teardown.join i ∉ post) ∧ Teardown.set_done ∉ post) := by
  have hseq : s.destruct
      = ([Teardown.set_done] ++ s.threads.map Teardown.join
          ++ [Teardown.release Member.joiner, Teardown.release Member.threads])
        ++ [Teardown.release Member.pool_queue, Teardown.release Member.queues,
            Teardown.release Member.cur_queues_size, Teardown.release Member.done] := by
    simp [ThreadPool.destruct, members, Member.destroy, ThreadWrapper.destroy]
  refine ⟨by rw [hseq]; simp, by simp [ThreadPool.destruct], ?_⟩
  intro pre post m hm hsplit
  rw [hseq] at hsplit
  have hnot : Teardown.release m ∉ [Teardown.set_done] ++ s.threads.map Teardown.join
      ++ [Teardown.release Member.joiner, Teardown.release Member.threads] := by
    rcases hm with rfl | rfl <;> simp
  obtain ⟨mid, hpre, hrest⟩ := append_split_of_not_mem hsplit hnot
  have hpost : ∀ x ∈ post, x = Teardown.release Member.queues ∨
      x = Teardown.release Member.cur_queues_size ∨ x = Teardown.release Member.done := by
    intro x hx
    have hmem : x ∈ mid ++ Teardown.release m :: post := by simp [hx]
    rw [← hrest] at hmem
    have hnd : ([Teardown.release Member.pool_queue, Teardown.release Member.queues,
        Teardown.release Member.cur_queues_size, Teardown.release Member.done]).Nodup := by
      decide
    rw [hrest] at hnd
    have hxne : x ≠ Teardown.release m := by
      intro hxe
      rw [List.nodup_append] at hnd
      have := (List.nodup_cons.mp hnd.2.1).1
      exact this (hxe ▸ hx)
    have hfirst : x ≠ Teardown.release Member.pool_queue := by
      intro hxe
      rcases hm with rfl | rfl
      · exact hxne hxe
      · cases mid with
        | nil => simp at hrest
        | cons y mid =>
          simp only [List.cons_append, List.cons.injEq] at hrest
          have hy : Teardown.release Member.pool_queue ∉ mid ++
              Teardown.release Member.queues :: post := by
            rw [← hrest.2]; decide
          exact hy (by simp [← hxe, hx])
    simp only [List.mem_cons, List.mem_singleton, List.not_mem_nil, or_false] at hmem
    rcases hmem with h | h | h | h
    · exact absurd h hfirst
    · exact Or.inl h
    · exact Or.inr (Or.inl h)
    · exact Or.inr (Or.inr h)
  subst hpre
  refine ⟨by simp, ?_, by simp, by simp, ?_, ?_⟩
  · intro i hi
    simp [hi]
  · intro i hi
    rcases hpost _ hi with h | h | h <;> cases h
  · intro hi
    rcases hpost _ hi with h | h | h <;> cases h

/-! ### Construction -/

theorem run_try_cons_none (tc : Nat) (throws : Stmt → Option Nat) (st : Stmt)
    (rest : List Stmt) (s : ThreadPool) (h : throws st = none) :
    run_try tc throws (st :: rest) s
      = { run_try tc throws rest (st.exec tc s) with
          points := s :: (run_try tc throws rest (st.exec tc s)).points } := by
  simp [run_try, h]

theorem run_try_cons_some (tc : Nat) (throws : Stmt → Option Nat) (st : Stmt)
    (rest : List Stmt) (s : ThreadPool) (e : Nat) (h : throws st = some e) :
    run_try tc throws (st :: rest) s
      = { points := [s, { s with done := true }], last := { s with done := true },
          thrown := some e } := by
  simp [run_try, h]

theorem run_try_points_head (tc : Nat) (throws : Stmt → Option Nat) (l : List Stmt)
    (s : ThreadPool) : ∃ tl, (run_try tc throws l s).points = s :: tl := by
  cases l with
  | nil => exact ⟨[], rfl⟩
  | cons st rest =>
    cases h : throws st with
    | none => exact ⟨_, by rw [run_try_cons_none tc throws st rest s h]⟩
    | some e => exact ⟨_, by rw [run_try_cons_some tc throws st rest s e h]⟩

theorem run_try_throw (tc : Nat) (throws : Stmt → Option Nat) (st : Stmt) (post : List Stmt)
    (e : Nat) (hst : throws st = some e) :
    ∀ (pre : List Stmt) (s : ThreadPool), (∀ x ∈ pre, throws x = none) →
      (run_try tc throws (pre ++ st :: post) s).thrown = some e ∧
      (run_try tc throws (pre ++ st :: post) s).last = (exec_all tc pre s).set_done true := by
  intro pre
  induction pre with
  | nil =>
    intro s _
    rw [List.nil_append, run_try_cons_some tc throws st post s e hst]
    exact ⟨rfl, rfl⟩
  | cons x pre ih =>
    intro s h
    rw [List.cons_append, run_try_cons_none tc throws x _ s (h x (by simp))]
    exact ih (x.exec tc s) (fun y hy => h y (by simp [hy]))

theorem run_try_complete (tc : Nat) (throws : Stmt → Option Nat) :
    ∀ (l : List Stmt) (s : ThreadPool), (∀ x ∈ l, throws x = none) →
      (run_try tc throws l s).thrown = none ∧
      (run_try tc throws l s).last = exec_all tc l s := by
  intro l
  induction l with
  | nil => intro s _; exact ⟨rfl, rfl⟩
  | cons x l ih =>
    intro s h
    rw [run_try_cons_none tc throws x _ s (h x (by simp))]
    exact ih (x.exec tc s) (fun y hy => h y (by simp [hy]))

theorem before_iteration_succ (i : Nat) :
    before_iteration (i + 1) = before_iteration i ++ loop_body i := by
  simp [before_iteration, List.range_succ, List.flatMap_append]

theorem exec_all_append (tc : Nat) (a b : List Stmt) (s : ThreadPool) :
    exec_all tc (a ++ b) s = exec_all tc b (exec_all tc a s) := by
  simp [exec_all, List.foldl_append]

theorem exec_loop_body (tc i : Nat) (hi : i < tc) (h32 : tc < 2 ^ 32) :
    exec_all tc (loop_body i) (ThreadPool.after_iterations tc i)
      = ThreadPool.after_iterations tc (i + 1) := by
  have h1 : (i + 1) % 2 ^ 32 = i + 1 := Nat.mod_eq_of_lt (by omega)
  have h2 : List.replicate i (some ([] : LockFreeWorkStealingQueue)) ++ [some []]
      = List.replicate (i + 1) (some []) := by
    rw [List.replicate_succ']
  have h2b : [some ([] : LockFreeWorkStealingQueue)] = List.replicate 1 (some []) := rfl
  simp only [exec_all, loop_body, List.foldl_cons, List.foldl_nil, Stmt.exec,
    ThreadPool.after_iterations, h1, h2, List.length_replicate, List.length_range,
    List.range_succ]
  have h3 : max tc (i + 1) = tc := by omega
  simp [h3]

theorem exec_before_iteration (tc : Nat) (h32 : tc < 2 ^ 32) :
    ∀ i, i ≤ tc →
      exec_all tc (before_iteration i) ThreadPool.initial = ThreadPool.after_iterations tc i := by
  intro i
  induction i with
  | zero =>
    intro _
    simp [exec_all, before_iteration, Stmt.exec, ThreadPool.initial,
      ThreadPool.after_iterations]
  | succ i ih =>
    intro hi
    rw [before_iteration_succ, exec_all_append, ih (by omega), exec_loop_body tc i (by omega) h32]

theorem try_block_split (tc i : Nat) (hi : i < tc) :
    ∃ rest, try_block tc = before_iteration i ++ loop_body i ++ rest := by
  obtain ⟨n, rfl⟩ : ∃ n, tc = i + (n + 1) := ⟨tc - i - 1, by omega⟩
  refine ⟨((List.range n).map (fun x => i + (x + 1))).flatMap loop_body, ?_⟩
  simp [try_block, before_iteration, List.range_add, List.range_succ_eq_map,
    List.flatMap_append, List.map_map, Function.comp_def]

/-- C8. Construction failure. Whatever statement of the `try` block is the first
to fail, with exception `e`, the constructor ends by throwing `e` (no pool is
returned), with `done` set, and with the effects of the statements that
completed before it kept as they are. In particular: when a `reserve` fails,
nothing is created; when the deque of slot `i` cannot be made, slots and
threads `0, ..., i - 1` exist and the count is `i`; when the thread of slot
`i` cannot be started, slots `0, ..., i` exist, the count is `i + 1`, and
threads `0, ..., i - 1` exist. -/
theorem construct_failure (thread_count : Nat) (throws : Stmt → Option Nat) (e : Nat)
    (h32 : thread_count < 2 ^ 32) :
    (∀ pre st post, try_block thread_count = pre ++ st :: post →
      (∀ x ∈ pre, throws x = none) → throws st = some e →
      (ThreadPool.construct thread_count throws).thrown = some e ∧
      (ThreadPool.construct thread_count throws).last.done = true ∧
      (ThreadPool.construct thread_count throws).last
        = (exec_all thread_count pre ThreadPool.initial).set_done true) ∧
    (throws Stmt.reserve_queues = some e →
      (ThreadPool.construct thread_count throws).thrown = some e ∧
      (ThreadPool.construct thread_count throws).last = ThreadPool.initial.set_done true) ∧
    (throws Stmt.reserve_queues = none → throws Stmt.reserve_threads = some e →
      (ThreadPool.construct thread_count throws).thrown = some e ∧
      (ThreadPool.construct thread_count throws).last
        = { ThreadPool.initial with queues_capacity := thread_count, done := true }) ∧
    (∀ i, i < thread_count → (∀ x ∈ before_iteration i, throws x = none) →
      throws (Stmt.make_queue i) = some e →
      (ThreadPool.construct thread_count throws).thrown = some e ∧
      (ThreadPool.construct thread_count throws).last
        = (ThreadPool.after_iterations thread_count i).set_done true) ∧
    (∀ i, i < thread_count → (∀ x ∈ before_iteration i, throws x = none) →
      throws (Stmt.make_queue i) = none → throws (Stmt.fetch_add i) = none →
      throws (Stmt.start_thread i) = some e →
      (ThreadPool.construct thread_count throws).thrown = some e ∧
      (ThreadPool.construct thread_count throws).last
        = { ThreadPool.after_iterations thread_count i with
            queues := List.replicate (i + 1) (some []), cur_queues_size := i + 1,
            done := true }) := by
  have hgen : ∀ pre st post, try_block thread_count = pre ++ st :: post →
      (∀ x ∈ pre, throws x = none) → throws st = some e →
      (ThreadPool.construct thread_count throws).thrown = some e ∧
      (ThreadPool.construct thread_count throws).last
        = (exec_all thread_count pre ThreadPool.initial).set_done true := by
    intro pre st post hsplit hpre hst
    unfold ThreadPool.construct
    rw [hsplit]
    exact run_try_throw thread_count throws st post e hst pre ThreadPool.initial hpre
  refine ⟨?_, ?_, ?_, ?_, ?_⟩
  · intro pre st post hsplit hpre hst
    have := hgen pre st post hsplit hpre hst
    exact ⟨this.1, by rw [this.2]; rfl, this.2⟩
  · intro hst
    exact hgen [] Stmt.reserve_queues _ rfl (by simp) hst
  · intro h1 hst
    have := hgen [Stmt.reserve_queues] Stmt.reserve_threads _ rfl (by simpa using h1) hst
    refine ⟨this.1, ?_⟩
    rw [this.2]
    simp [exec_all, Stmt.exec, ThreadPool.initial, ThreadPool.set_done]
  · intro i hi hpre hst
    obtain ⟨rest, hsplit⟩ := try_block_split thread_count i hi
    have := hgen (before_iteration i) (Stmt.make_queue i)
      (Stmt.fetch_add i :: Stmt.start_thread i :: rest)
      (by rw [hsplit]; simp [loop_body]) hpre hst
    rw [exec_before_iteration thread_count h32 i (by omega)] at this
    exact this
  · intro i hi hpre h1 h2 hst
    obtain ⟨rest, hsplit⟩ := try_block_split thread_count i hi
    have := hgen (before_iteration i ++ [Stmt.make_queue i, Stmt.fetch_add i])
      (Stmt.start_thread i) rest (by rw [hsplit]; simp [loop_body]) (by
        intro x hx
        rcases List.mem_append.mp hx with hx | hx
        · exact hpre x hx
        · simp only [List.mem_cons, List.mem_singleton, List.not_mem_nil, or_false] at hx
          rcases hx with rfl | rfl
          · exact h1
          · exact h2) hst
    refine ⟨this.1, ?_⟩
    rw [this.2, exec_all_append, exec_before_iteration thread_count h32 i (by omega)]
    have hlt : i + 1 < 4294967296 := by omega
    have hmax : max thread_count (i + 1) = thread_count := by omega
    simp [exec_all, Stmt.exec, ThreadPool.after_iterations, ThreadPool.set_done, hmax,
      List.replicate_succ', Nat.mod_eq_of_lt hlt]

theorem populated_replicate (s : ThreadPool) (m : Nat)
    (h : s.queues = List.replicate m (some [])) : s.populated = m := by
  simp [ThreadPool.populated, h, List.filter_replicate]

theorem deque_at_replicate (s : ThreadPool) (m j : Nat)
    (h : s.queues = List.replicate m (some [])) (hj : j < m) : s.deque_at j = some [] := by
  simp [ThreadPool.deque_at, h, List.getElem?_replicate, hj]

theorem construction_point_of_shape (tc : Nat) (s : ThreadPool) (c m t : Nat)
    (hc : s.cur_queues_size = c) (hq : s.queues = List.replicate m (some []))
    (ht : s.threads = List.range t) (h1 : t ≤ c) (h2 : c ≤ m) (h3 : m ≤ c + 1)
    (h4 : m ≤ tc) : construction_point tc s := by
  have hp := populated_replicate s m hq
  refine ⟨by rw [ht, hc]; simpa using h1, by rw [hp, hc]; exact h2, by rw [hp, hc]; exact h3,
    by rw [hp, hq]; simp, by rw [hp]; exact h4, ?_⟩
  intro i hi
  rw [ht, List.mem_range] at hi
  exact ⟨by rw [hc]; omega, by rw [deque_at_replicate s m i hq (by omega)]; rfl⟩

theorem loop_points (tc : Nat) (throws : Stmt → Option Nat) (h32 : tc < 2 ^ 32) :
    ∀ (n i : Nat) (s : ThreadPool), i + n ≤ tc → s.cur_queues_size = i →
      s.queues = List.replicate i (some []) → s.threads = List.range i →
      (∀ p ∈ (run_try tc throws ((List.range' i n).flatMap loop_body) s).points,
        construction_point tc p) ∧
      List.Chain' construction_step
        (run_try tc throws ((List.range' i n).flatMap loop_body) s).points := by
  intro n
  induction n with
  | zero =>
    intro i s hi hc hq ht
    have hP := construction_point_of_shape tc s i i i hc hq ht (by omega) (by omega)
      (by omega) (by omega)
    simp [run_try, hP]
  | succ n ih =>
    intro i s hi hc hq ht
    have hm : (i + 1) % 2 ^ 32 = i + 1 := Nat.mod_eq_of_lt (by omega)
    have hrep : List.replicate i (some ([] : LockFreeWorkStealingQueue)) ++ [some []]
        = List.replicate (i + 1) (some []) := by rw [List.replicate_succ']
    -- the three states of the iteration
    have hq1 : ((Stmt.make_queue i).exec tc s).queues = List.replicate (i + 1) (some []) := by
      simp [Stmt.exec, hq, hrep]
    have hP0 := construction_point_of_shape tc s i i i hc hq ht (by omega) (by omega)
      (by omega) (by omega)
    have hP1 := construction_point_of_shape tc ((Stmt.make_queue i).exec tc s) i (i + 1) i
      hc hq1 ht (by omega) (by omega) (by omega) (by omega)
    have hq2 : ((Stmt.fetch_add i).exec tc ((Stmt.make_queue i).exec tc s)).queues
        = List.replicate (i + 1) (some []) := hq1
    have hc2 : ((Stmt.fetch_add i).exec tc ((Stmt.make_queue i).exec tc s)).cur_queues_size
        = i + 1 := by
      show (s.cur_queues_size + 1) % 2 ^ 32 = i + 1
      rw [hc, hm]
    have hP2 := construction_point_of_shape tc
      ((Stmt.fetch_add i).exec tc ((Stmt.make_queue i).exec tc s)) (i + 1) (i + 1) i
      hc2 hq2 ht (by omega) (by omega) (by omega) (by omega)
    have hR01 : construction_step s ((Stmt.make_queue i).exec tc s) :=
      ⟨Nat.le_refl _, Or.inl rfl⟩
    have hR12 : construction_step ((Stmt.make_queue i).exec tc s)
        ((Stmt.fetch_add i).exec tc ((Stmt.make_queue i).exec tc s)) := by
      refine ⟨?_, Or.inl rfl⟩
      show s.cur_queues_size ≤ (s.cur_queues_size + 1) % 2 ^ 32
      rw [hc, hm]; omega
    have hR23 : construction_step
        ((Stmt.fetch_add i).exec tc ((Stmt.make_queue i).exec tc s))
        ((Stmt.start_thread i).exec tc
          ((Stmt.fetch_add i).exec tc ((Stmt.make_queue i).exec tc s))) := by
      refine ⟨Nat.le_refl _, Or.inr ⟨i, rfl, ?_, ?_, ?_⟩⟩
      · show i + 1 = (s.cur_queues_size + 1) % 2 ^ 32
        rw [hc, hm]
      · rw [populated_replicate _ (i + 1) hq2, hc2]
      · rw [deque_at_replicate _ (i + 1) i hq2 (by omega)]; rfl
    have hself : ∀ p : ThreadPool, construction_step p { p with done := true } :=
      fun p => ⟨Nat.le_refl _, Or.inl rfl⟩
    have hdone : ∀ p : ThreadPool, construction_point tc p →
        construction_point tc { p with done := true } := fun p hp => hp
    simp only [List.range'_succ, List.flatMap_cons, loop_body, List.cons_append,
      List.nil_append]
    cases h1 : throws (Stmt.make_queue i) with
    | some e =>
      rw [run_try_cons_some tc throws _ _ s e h1]
      exact ⟨by simp [hP0, hdone s hP0], by simp [hself s]⟩
    | none =>
      rw [run_try_cons_none tc throws _ _ s h1]
      cases h2 : throws (Stmt.fetch_add i) with
      | some e =>
        rw [run_try_cons_some tc throws _ _ _ e h2]
        exact ⟨by simp [hP0, hP1, hdone _ hP1], by simp [hself, hR01]⟩
      | none =>
        rw [run_try_cons_none tc throws _ _ _ h2]
        cases h3 : throws (Stmt.start_thread i) with
        | some e =>
          rw [run_try_cons_some tc throws _ _ _ e h3]
          exact ⟨by simp [hP0, hP1, hP2, hdone _ hP2], by simp [hself, hR01, hR12]⟩
        | none =>
          rw [run_try_cons_none tc throws _ _ _ h3]
          have hrec := ih (i + 1)
            ((Stmt.start_thread i).exec tc
              ((Stmt.fetch_add i).exec tc ((Stmt.make_queue i).exec tc s)))
            (by omega) hc2 hq1
            (by simp [Stmt.exec, ht, List.range_succ])
          obtain ⟨tl, htl⟩ := run_try_points_head tc throws
            ((List.range' (i + 1) n).flatMap loop_body)
            ((Stmt.start_thread i).exec tc
              ((Stmt.fetch_add i).exec tc ((Stmt.make_queue i).exec tc s)))
          simp only [loop_body] at hrec htl
          rw [htl] at hrec
          rw [htl]
          refine ⟨?_, ?_⟩
          · intro p hp
            simp only [List.mem_cons] at hp
            rcases hp with rfl | rfl | rfl | hp
            · exact hP0
            · exact hP1
            · exact hP2
            · exact hrec.1 p (by simpa using hp)
          · exact List.Chain'.cons hR01 (List.Chain'.cons hR12 (List.Chain'.cons hR23 hrec.2))

/-- C10, as amended. At every point of the construction, whatever statement
fails: the number of threads started is at most the count; the count is at
most the number of populated slots, which is at most the count plus one (the
two differ exactly between the making of a slot and the advance of the
count); every slot of `queues` is populated and there are at most
`thread_count` of them; every started thread has an own index below the
count and a populated own slot. From each point to the next the count does
not decrease, and the thread for slot `i` is started only at a point where
the count is `i + 1` and equals the number of populated slots. A construction
in which nothing fails ends with `thread_count` threads, count and slots. -/
theorem construction_order (thread_count : Nat) (throws : Stmt → Option Nat)
    (h32 : thread_count < 2 ^ 32) :
    (∀ s ∈ (ThreadPool.construct thread_count throws).points,
      construction_point thread_count s) ∧
    List.Chain' construction_step (ThreadPool.construct thread_count throws).points ∧
    ((∀ st ∈ try_block thread_count, throws st = none) →
      (ThreadPool.construct thread_count throws).thrown = none ∧
      (ThreadPool.construct thread_count throws).last
        = ThreadPool.after_iterations thread_count thread_count) := by
  have hshape : ∀ s : ThreadPool, s.cur_queues_size = 0 → s.queues = [] → s.threads = [] →
      construction_point thread_count s := fun s hc hq ht =>
    construction_point_of_shape thread_count s 0 0 0 hc hq ht (by omega) (by omega)
      (by omega) (by omega)
  have hself : ∀ p : ThreadPool, construction_step p { p with done := true } :=
    fun p => ⟨Nat.le_refl _, Or.inl rfl⟩
  have hP0 := hshape ThreadPool.initial rfl rfl rfl
  have hP1 := hshape (Stmt.reserve_queues.exec thread_count ThreadPool.initial) rfl rfl rfl
  have hP2 := hshape (Stmt.reserve_threads.exec thread_count
    (Stmt.reserve_queues.exec thread_count ThreadPool.initial)) rfl rfl rfl
  have hR01 : construction_step ThreadPool.initial
      (Stmt.reserve_queues.exec thread_count ThreadPool.initial) :=
    ⟨Nat.le_refl _, Or.inl rfl⟩
  have hR12 : construction_step (Stmt.reserve_queues.exec thread_count ThreadPool.initial)
      (Stmt.reserve_threads.exec thread_count
        (Stmt.reserve_queues.exec thread_count ThreadPool.initial)) :=
    ⟨Nat.le_refl _, Or.inl rfl⟩
  have hboth : (∀ s ∈ (ThreadPool.construct thread_count throws).points,
      construction_point thread_count s) ∧
      List.Chain' construction_step (ThreadPool.construct thread_count throws).points := by
    simp only [ThreadPool.construct, try_block, List.cons_append, List.nil_append]
    cases h1 : throws Stmt.reserve_queues with
    | some e =>
      rw [run_try_cons_some thread_count throws _ _ _ e h1]
      exact ⟨by
        intro p hp
        simp only [List.mem_cons, List.mem_singleton, List.not_mem_nil, or_false] at hp
        rcases hp with rfl | rfl
        · exact hP0
        · exact hP0, by simp [hself]⟩
    | none =>
      rw [run_try_cons_none thread_count throws _ _ _ h1]
      cases h2 : throws Stmt.reserve_threads with
      | some e =>
        rw [run_try_cons_some thread_count throws _ _ _ e h2]
        exact ⟨by
          intro p hp
          simp only [List.mem_cons, List.mem_singleton, List.not_mem_nil, or_false] at hp
          rcases hp with rfl | rfl | rfl
          · exact hP0
          · exact hP1
          · exact hP1, by simp [hself, hR01]⟩
      | none =>
        rw [run_try_cons_none thread_count throws _ _ _ h2]
        have hloop := loop_points thread_count throws h32 thread_count 0
          (Stmt.reserve_threads.exec thread_count
            (Stmt.reserve_queues.exec thread_count ThreadPool.initial))
          (by omega) rfl rfl rfl
        rw [← List.range_eq_range'] at hloop
        obtain ⟨tl, htl⟩ := run_try_points_head thread_count throws
          ((List.range thread_count).flatMap loop_body)
          (Stmt.reserve_threads.exec thread_count
            (Stmt.reserve_queues.exec thread_count ThreadPool.initial))
        rw [htl] at hloop
        simp only [htl]
        refine ⟨?_, List.Chain'.cons hR01 (List.Chain'.cons hR12 hloop.2)⟩
        intro p hp
        simp only [List.mem_cons] at hp
        rcases hp with rfl | rfl | hp
        · exact hP0
        · exact hP1
        · exact hloop.1 p (by simpa using hp)
  refine ⟨hboth.1, hboth.2, ?_⟩
  · intro hall
    have := run_try_complete thread_count throws (try_block thread_count)
      ThreadPool.initial hall
    refine ⟨this.1, ?_⟩
    have hb : try_block thread_count = before_iteration thread_count := rfl
    unfold ThreadPool.construct
    rw [this.2, hb, exec_before_iteration thread_count h32 thread_count (Nat.le_refl _)]

/-! ### Instances on concrete pools -/

/-- Beyond the range of the loop counter the sum on line 59 wraps around: with
`2 ^ 32 - 1` slots and own index `2 ^ 32 - 2` the first two probes are both of
slot 0. -/
theorem steal_index_wraps :
    steal_index 4294967294 4294967295 0 = 0 ∧ steal_index 4294967294 4294967295 1 = 0 := by
  decide

/-- Worker 0 of `busy_pool` submits task 9 to its own deque; a thread that is
not a worker submits it to the fallback queue. -/
theorem submit_routing_witness :
    busy_pool.deque_at 0 = some [1, 2] ∧
    (busy_pool.submit { local_queue := some 0, idx := 0 } 9).1.deque_at 0 = some [1, 2, 9] ∧
    (busy_pool.submit { local_queue := some 0, idx := 0 } 9).1.pool_queue = [4, 5] ∧
    (busy_pool.submit ThreadLocal.non_worker 9).1.pool_queue = [4, 5, 9] ∧
    (busy_pool.submit ThreadLocal.non_worker 9).1.queues = busy_pool.queues :=
  ⟨rfl,
   ((submit_routing busy_pool { local_queue := some 0, idx := 0 } 9).1 0 [1, 2] rfl rfl).2.1,
   ((submit_routing busy_pool { local_queue := some 0, idx := 0 } 9).1 0 [1, 2]
      rfl rfl).2.2.2.2.1,
   ((submit_routing busy_pool ThreadLocal.non_worker 9).2.1 rfl).2.1,
   ((submit_routing busy_pool ThreadLocal.non_worker 9).2.1 rfl).2.2.1⟩

/-- Worker 0 of `busy_pool` takes task 2 from the back of its own deque; worker 1,
whose deque is empty, takes task 4 from the fallback queue; worker 1 of
`stealing_pool`, where the fallback queue is empty too, steals task 3 from
slot 2; worker 0 of `idle_pool` finds nothing and yields. -/
theorem run_pending_task_priority_witness :
    busy_pool.run_pending_task { local_queue := some 0, idx := 0 }
      = (busy_pool.store_deque 0 [1], [Event.try_pop_back 0 (some 2), Event.invoke 2]) ∧
    busy_pool.run_pending_task { local_queue := some 1, idx := 1 }
      = ({ busy_pool with pool_queue := [5] },
         [Event.try_pop_back 1 none, Event.try_pop (some 4), Event.invoke 4]) ∧
    stealing_pool.run_pending_task { local_queue := some 1, idx := 1 }
      = (stealing_pool.store_deque 2 [],
         [Event.try_pop_back 1 none, Event.try_pop none, Event.try_steal_front 2 (some 3),
          Event.invoke 3]) ∧
    idle_pool.run_pending_task { local_queue := some 0, idx := 0 }
      = (idle_pool,
         [Event.try_pop_back 0 none, Event.try_pop none, Event.try_steal_front 1 none,
          Event.try_steal_front 0 none, Event.yield]) :=
  ⟨(run_pending_task_priority busy_pool { local_queue := some 0, idx := 0 }).1 0 [1] 2 rfl rfl,
   (run_pending_task_priority busy_pool { local_queue := some 1, idx := 1 }).2.1 4 [5]
     (by
       intro k hk
       cases hk
       exact Or.inr rfl) rfl,
   (run_pending_task_priority stealing_pool { local_queue := some 1, idx := 1 }).2.2.1 3
     (by
       intro k hk
       cases hk
       exact Or.inr rfl) rfl rfl,
   ((run_pending_task_priority idle_pool { local_queue := some 0, idx := 0 }).2.2.2
     (by
       intro k hk
       cases hk
       exact Or.inr rfl) rfl rfl).1⟩

/-- The steps `busy_steps` on `busy_pool`: tasks 9, 4 and 5 are invoked, each
once, and tasks 1, 2 and 3 are still held, each once. -/
theorem task_conservation_witness :
    (∀ st ∈ busy_steps, st.thread.valid busy_pool) ∧
    List.Perm
      ((({ pool := busy_pool, invoked := [] } : Execution).run busy_steps).pool.held
        ++ (({ pool := busy_pool, invoked := [] } : Execution).run busy_steps).invoked)
      ([1, 2, 3, 4, 5] ++ [] ++ [9]) ∧
    (({ pool := busy_pool, invoked := [] } : Execution).run busy_steps).invoked = [9, 4, 5] ∧
    ((({ pool := busy_pool, invoked := [] } : Execution).run busy_steps).pool.held.count 9 = 0 ∧
      (({ pool := busy_pool, invoked := [] } : Execution).run busy_steps).invoked.count 9
        = 1) :=
  have hvalid : ∀ st ∈ busy_steps, st.thread.valid busy_pool := by
    intro st hst k hk
    simp only [busy_steps, List.mem_cons, List.mem_singleton, List.not_mem_nil,
      or_false] at hst
    rcases hst with rfl | rfl | rfl | rfl
    · cases hk; rfl
    · cases hk; rfl
    · cases hk; rfl
    · cases hk
  ⟨hvalid, (task_conservation { pool := busy_pool, invoked := [] } busy_steps hvalid).1,
   by decide,
   ((task_conservation { pool := busy_pool, invoked := [] } busy_steps hvalid).2.1
      (by decide) 9 (by decide)).resolve_left (by decide)⟩

/-- Worker 1 of `busy_pool` scans slots 2, 0, 1 in that order and steals task 3
from slot 2, the first probe; worker 0 of `idle_pool` probes slots 1 and 0 and
fails; on a pool with no constructed slot nothing is probed. -/
theorem steal_scan_order_witness :
    busy_pool.cur_queues_size ≤ 2147483647 ∧ 1 < busy_pool.cur_queues_size ∧
    steal_order 1 3 = [2, 0, 1] ∧
    ((busy_pool.pop_task_from_other_thread_queue { local_queue := some 1, idx := 1 }).1
        = some 3 ∧
      (busy_pool.pop_task_from_other_thread_queue { local_queue := some 1, idx := 1 }).2.1
        = busy_pool.store_deque 2 [] ∧
      probed_slots
        (busy_pool.pop_task_from_other_thread_queue { local_queue := some 1, idx := 1 }).2.2
        = [2]) ∧
    ((idle_pool.pop_task_from_other_thread_queue { local_queue := some 0, idx := 0 }).2.1
        = idle_pool ∧
      probed_slots
        (idle_pool.pop_task_from_other_thread_queue { local_queue := some 0, idx := 0 }).2.2
        = [1, 0]) ∧
    ThreadPool.initial.pop_task_from_other_thread_queue ThreadLocal.non_worker
      = (none, ThreadPool.initial, []) :=
  ⟨by decide, by decide, by decide,
   ((steal_scan_order busy_pool { local_queue := some 1, idx := 1 }).2 (by decide)
      (by decide)).2.2.2.2.2.1 [] 2 [0, 1] 3 [] (by decide) (by simp) rfl,
   ((steal_scan_order idle_pool { local_queue := some 0, idx := 0 }).2 (by decide)
      (by decide)).2.2.2.2.2.2.2 (by decide),
   (steal_scan_order ThreadPool.initial ThreadLocal.non_worker).1 rfl⟩

/-- Worker 0 of `idle_pool`: the scan order is the sibling slot 1, then the own
slot 0, and the whole order is probed. -/
theorem steal_targets_witness :
    idle_pool.cur_queues_size ≤ 2147483647 ∧
    (idle_pool.worker_identity 0).idx < idle_pool.cur_queues_size ∧
    steal_order 0 2 = [1] ++ [0] ∧
    probed_slots (idle_pool.pop_task_from_other_thread_queue (idle_pool.worker_identity 0)).2.2
      = steal_order 0 2 ∧
    (∀ j ∈ steal_order 0 2, j ≠ 0 → idle_pool.stealable j = none) :=
  ⟨by decide, by decide,
   (steal_targets idle_pool (idle_pool.worker_identity 0) (by decide) (by decide)).1,
   (steal_targets idle_pool (idle_pool.worker_identity 0) (by decide) (by decide)).2.2.2.1
     (by decide),
   ((steal_targets idle_pool (idle_pool.worker_identity 0) (by decide) (by decide)).2.2.1
     (by decide)).2⟩

/-- C5, counterexample. In the pool of two idle workers, a scheduling attempt of
worker 0 calls `try_steal_front` on slot 1 and then on slot 0, the deque it
owns. -/
theorem steal_targets_counterexample :
    (idle_pool.worker_identity 0) = { local_queue := some 0, idx := 0 } ∧
    (idle_pool.run_pending_task (idle_pool.worker_identity 0)).2
      = [Event.try_pop_back 0 none, Event.try_pop none, Event.try_steal_front 1 none,
         Event.try_steal_front 0 none, Event.yield] ∧
    (idle_pool.worker_identity 0).idx
      ∈ stolen_from (idle_pool.run_pending_task (idle_pool.worker_identity 0)).2 := by
  decide

/-- Worker 0 of `busy_pool`, with the flag set by another thread while it is
inside its first attempt: it pops and invokes task 2, then reads the flag as
set and leaves the loop; task 1 stays in its deque. Started on the pool with
the flag already set, it reads the flag and leaves the loop at once. -/
theorem worker_loop_shutdown_witness :
    busy_pool.done = false ∧
    busy_pool.worker_thread 0 [Interference.shutdown, Interference.idle, Interference.idle]
      = { state := (busy_pool.store_deque 0 [1]).set_done true,
          events := [Event.load_done false, Event.try_pop_back 0 (some 2), Event.invoke 2,
                     Event.load_done true],
          exited := true } ∧
    (busy_pool.set_done true).worker_thread 0 [Interference.idle]
      = { state := busy_pool.set_done true, events := [Event.load_done true],
          exited := true } ∧
    (ThreadPool.worker_loop { local_queue := some 0, idx := 0 }
      [Interference.shutdown, Interference.idle] busy_pool).exited = true :=
  ⟨rfl,
   (worker_loop_shutdown (busy_pool.worker_identity 0)).2.2.2
     Interference.idle [Interference.idle] busy_pool rfl,
   (worker_loop_shutdown ((busy_pool.set_done true).worker_identity 0)).2.2.1
     [] Interference.idle [] (busy_pool.set_done true) rfl rfl,
   ((worker_loop_shutdown { local_queue := some 0, idx := 0 }).2.1
     [Interference.shutdown, Interference.idle] busy_pool
     [Event.load_done false, Event.try_pop_back 0 (some 2), Event.invoke 2] [] (by decide)).2⟩

/-- C7, counterexample. On `busy_pool` with the shutdown flag set, a call of
`submit` by a thread that is not a worker does not fail: it appends task 9
to the fallback queue and returns the future paired with it. -/
theorem submit_after_shutdown_counterexample :
    (busy_pool.set_done true).done = true ∧
    (busy_pool.set_done true).submit ThreadLocal.non_worker 9
      = ({ busy_pool with done := true, pool_queue := [4, 5, 9] }, { task := 9 },
         [Event.push 9]) := by
  decide

/-- Worker 2 of `busy_pool` with the shutdown flag set submits task 9: the
future is returned, the flag stays set, and the task is held with the others. -/
theorem submit_ignores_done_witness :
    (busy_pool.set_done true).done = true ∧
    ThreadLocal.valid { local_queue := some 2, idx := 2 } (busy_pool.set_done true) ∧
    ((busy_pool.set_done true).submit { local_queue := some 2, idx := 2 } 9).2.1
      = { task := 9 } ∧
    List.Perm ((busy_pool.set_done true).submit { local_queue := some 2, idx := 2 } 9).1.held
      (9 :: (busy_pool.set_done true).held) :=
  have hvalid : ThreadLocal.valid { local_queue := some 2, idx := 2 }
      (busy_pool.set_done true) := by
    intro k hk
    cases hk
    rfl
  ⟨rfl, hvalid,
   (submit_ignores_done (busy_pool.set_done true) { local_queue := some 2, idx := 2 } 9
      rfl hvalid).1,
   (submit_ignores_done (busy_pool.set_done true) { local_queue := some 2, idx := 2 } 9
      rfl hvalid).2.2.1⟩

/-- With two hardware threads and a failure of the start of thread 1: exception
7 leaves the constructor, `done` is set, slots 0 and 1 and thread 0 remain and
the count is 2. With a failure of the making of slot 1: slot 0 and thread 0
remain and the count is 1. With a failure of the first `reserve`: nothing
was created. -/
theorem construct_failure_witness :
    (2 < 2 ^ 32) ∧
    (∀ x ∈ before_iteration 1, thread_one_fails x = none) ∧
    thread_one_fails (Stmt.start_thread 1) = some 7 ∧
    (ThreadPool.construct 2 thread_one_fails).thrown = some 7 ∧
    (ThreadPool.construct 2 thread_one_fails).last
      = { done := true, cur_queues_size := 2, queues := [some [], some []], pool_queue := [],
          threads := [0], queues_capacity := 2, threads_capacity := 2 } ∧
    (ThreadPool.construct 2 slot_one_fails).last
      = { done := true, cur_queues_size := 1, queues := [some []], pool_queue := [],
          threads := [0], queues_capacity := 2, threads_capacity := 2 } ∧
    (ThreadPool.construct 2 reserve_fails).last
      = { done := true, cur_queues_size := 0, queues := [], pool_queue := [],
          threads := [], queues_capacity := 0, threads_capacity := 0 } ∧
    (ThreadPool.construct 2 reserve_fails).last.done = true :=
  ⟨by decide, by decide, by decide,
   ((construct_failure 2 thread_one_fails 7 (by decide)).2.2.2.2 1 (by decide) (by decide)
      (by decide) (by decide) (by decide)).1,
   ((construct_failure 2 thread_one_fails 7 (by decide)).2.2.2.2 1 (by decide) (by decide)
      (by decide) (by decide) (by decide)).2,
   ((construct_failure 2 slot_one_fails 8 (by decide)).2.2.2.1 1 (by decide) (by decide)
      (by decide)).2,
   ((construct_failure 2 reserve_fails 9 (by decide)).2.1 (by decide)).2,
   ((construct_failure 2 reserve_fails 9 (by decide)).1 [] Stmt.reserve_queues
      (Stmt.reserve_threads :: (List.range 2).flatMap loop_body) (by decide) (by decide)
      (by decide)).2.1⟩

/-- The teardown of `busy_pool`: before the release of the fallback queue come the
store of the flag and the joins of threads 0, 1 and 2. -/
theorem teardown_order_witness :
    busy_pool.destruct
      = [Teardown.set_done, Teardown.join 0, Teardown.join 1, Teardown.join 2,
         Teardown.release Member.joiner, Teardown.release Member.threads]
        ++ Teardown.release Member.pool_queue
          :: [Teardown.release Member.queues, Teardown.release Member.cur_queues_size,
              Teardown.release Member.done] ∧
    (∀ i ∈ busy_pool.threads, Teardown.join i
      ∈ [Teardown.set_done, Teardown.join 0, Teardown.join 1, Teardown.join 2,
         Teardown.release Member.joiner, Teardown.release Member.threads]) :=
  ⟨by decide,
   ((teardown_order busy_pool).2.2
      [Teardown.set_done, Teardown.join 0, Teardown.join 1, Teardown.join 2,
       Teardown.release Member.joiner, Teardown.release Member.threads]
      [Teardown.release Member.queues, Teardown.release Member.cur_queues_size,
       Teardown.release Member.done]
      Member.pool_queue (Or.inl rfl) (by decide)).2.1⟩

/-- C10, counterexample. In the construction of a pool of one worker there is a
point, after slot 0 is made and before the count is advanced, where one slot
is populated and the count is still zero. -/
theorem construction_order_counterexample :
    ∃ s ∈ (ThreadPool.construct 1 (fun _ => none)).points,
      s.populated = 1 ∧ s.cur_queues_size = 0 ∧ s.cur_queues_size ≠ s.populated := by
  decide

/-- The construction of a pool of two workers in which nothing fails: every
point satisfies the ordering, and it ends with two threads, count two and
two slots. -/
theorem construction_order_witness :
    (2 < 2 ^ 32) ∧
    (∀ st ∈ try_block 2, (fun _ => none : Stmt → Option Nat) st = none) ∧
    (∀ s ∈ (ThreadPool.construct 2 (fun _ => none)).points, construction_point 2 s) ∧
    (ThreadPool.construct 2 (fun _ => none)).last = ThreadPool.after_iterations 2 2 :=
  ⟨by decide, fun _ _ => rfl,
   (construction_order 2 (fun _ => none) (by decide)).1,
   ((construction_order 2 (fun _ => none) (by decide)).2.2 (fun _ _ => rfl)).2⟩

end ThreadPoolModel
